import Mathlib

/-!
# Verification of the bookbinder book-source pipeline

A shallow embedding, in Lean, of the core of the `bookbinder` repository:
the book-event intermediate representation (`bookbinder_ast`), the content
accumulator (`BookSrcBuilder`), the division classifier
(`StepLevel` / `divide_into_sections`), the stream assembler
(`BookSrcBuilder::process`), the header formatter (`BookSrc::change_headers`),
the division-header collation helpers (`bookbinder_ast::helpers`), and the
image-format handling of the two backends (`bookbinder_epub::preprocess`,
`LatexWriter::write` / `CollatedImage::get_latex_image_path`).

Modelling conventions:
* Rust `Vec<T>` becomes `List T`; `Cow<'a, str>` / `CowStr<'a>` become `String`.
* Markdown tokenization (the `extended_pulldown` Token Source, an external
  collaborator per the spec) is abstracted: builder operations take the
  token sequences the parser would have produced, and `process` is
  parameterized by the parsing functions it applies to metadata strings.
* Machine integers: the `u8` division counters are modelled as `Nat` with
  arithmetic taken `% 256` (release-mode wrapping semantics); `u32` heading
  levels use `% 2^32`.  `usize` quantities (list lengths, the epigraph
  count) are plain `Nat`.
* Filesystem and subprocess effects are parameterized as explicit
  environment records of pure functions.
-/

namespace Bookbinder

/-- `SemanticRole` from `bookbinder_ast/src/lib.rs` (lines 67-82). -/
inductive SemanticRole
  | Halftitle
  | Copyrightpage
  | Titlepage
  | Dedication
  | Foreword
  | Afterword
  | Introduction
  | Colophon
  | Epigraph
  | Acknowledgements
  | Appendix
  | Chapter
  | Part
  | Preface
deriving DecidableEq, Repr

/-- `SemanticRole::get_label` (lib.rs lines 92-106). -/
def SemanticRole.getLabel : SemanticRole → Option String
  | .Epigraph | .Halftitle | .Copyrightpage | .Titlepage | .Dedication => none
  | .Foreword => some "Foreword"
  | .Afterword => some "Afterword"
  | .Introduction => some "Introduction"
  | .Colophon => some "Colophon"
  | .Acknowledgements => some "Acknowledgements"
  | .Appendix => some "Appendix"
  | .Chapter => some "Chapter"
  | .Part => some "Part"
  | .Preface => some "Preface"

/-- `TitlePageContributorRole` (lib.rs lines 112-120). -/
inductive TitlePageContributorRole
  | Author
  | Editor
  | Translator
  | ForewordAuthor
  | AfterwordAuthor
  | IntroductionAuthor
  | IntroductionAndNotesAuthor
deriving DecidableEq, Repr

/-- `TitlePageContributorRole::get_label` (lib.rs lines 124-135). -/
def TitlePageContributorRole.getLabel : TitlePageContributorRole → Option String
  | .Author => none
  | .Editor => some "Edited by"
  | .Translator => some "Translated by"
  | .ForewordAuthor => some "With a foreword by"
  | .AfterwordAuthor => some "With an afterword by"
  | .IntroductionAuthor => some "With an introduction by"
  | .IntroductionAndNotesAuthor => some "With an introduction and notes by"

/-- `NumberFormat` (lib.rs lines 140-149); default is `Arabic`. -/
inductive NumberFormat
  | Words
  | Arabic
  | Roman
  | Letter
deriving DecidableEq, Repr

/-- `extended_pulldown::Tag` (extended_pulldown/src/lib.rs lines 359-411).
Payloads irrelevant to every claim are simplified: the `LinkType` field of
links/images and the column alignments of tables are dropped, code-block
kinds keep only their info string. -/
inductive Tag
  | Paragraph
  | Heading (level : Nat)
  | BlockQuote
  | BlockQuotation
  | CodeBlock (info : String)
  | List (start : Option Nat)
  | Item
  | FootnoteDefinition (label : String)
  | Table
  | TableHead
  | TableRow
  | TableCell
  | Emphasis
  | Strong
  | Link (dest title : String)
  | Image (dest title : String)
  | Strikethrough
  | Sans
  | Centred
  | SmallCaps
  | RightAligned
  | Superscript
  | Subscript
  | FlattenedFootnote
  | UnindentedParagraph
deriving DecidableEq, Repr

/-- `extended_pulldown::Event` (extended_pulldown/src/lib.rs lines 228-250). -/
inductive Event
  | Start (tag : Tag)
  | End (tag : Tag)
  | Text (s : String)
  | Code (s : String)
  | FootnoteReference (s : String)
  | SoftBreak
  | HardBreak
  | Rule
  | Html (s : String)
  | TaskListMarker (checked : Bool)
deriving DecidableEq, Repr

/-- `BookEvent` (bookbinder_ast/src/lib.rs lines 161-192).
`DivisionHeaderLabel.number` is `Option Nat` for the Rust `Option<u8>`:
every number the program stores in it is reduced `% 256`. -/
inductive BookEvent
  | BeginSemantic (role : SemanticRole)
  | EndSemantic (role : SemanticRole)
  | Event (e : Event)
  | BeginDivisionHeader (starred : Bool)
  | EndDivisionHeader (starred : Bool)
  | DivisionHeaderLabel (text : Option String) (number : Option Nat)
      (numberFormat : NumberFormat)
  | DivisionAuthors (names : List String)
  | BeginTitlePage
  | BeginTitlePageTitle
  | EndTitlePageTitle
  | BeginTitlePageSubTitle
  | EndTitlePageSubTitle
  | TitlePageContributors
      (contributors : List (TitlePageContributorRole × List String))
  | EndTitlePage
  | BeginMainmatter
  | BeginFrontmatter
  | BeginBackmatter
  | BeginEpigraphText
  | EndEpigraphText
  | BeginEpigraphSource
  | EndEpigraphSource
  | Null
deriving DecidableEq, Repr

instance : Inhabited BookEvent := ⟨BookEvent.Null⟩

/-- The modulus of `u8` arithmetic. -/
def u8Mod : Nat := 256

/-- The modulus of `u32` arithmetic. -/
def u32Mod : Nat := 4294967296

/-! ## Event helpers (`EventHelper` impl, lib.rs lines 1496-1559) -/

/-- Classification of an event as a heading start, heading end, or anything
else; headings are the only tokens `divide_into_sections` treats specially. -/
inductive HeadEv
  | startH (level : Nat)
  | endH (level : Nat)
  | plain
deriving DecidableEq, Repr

/-- View of an event through the heading patterns of `divide_into_sections`. -/
def headEv : Event → HeadEv
  | .Start (.Heading h) => .startH h
  | .End (.Heading h) => .endH h
  | _ => .plain

/-- `make_paragraphs_unindented` (lib.rs lines 1497-1505). -/
def makeParagraphsUnindented (events : List Event) : List Event :=
  events.map fun e =>
    match e with
    | .Start .Paragraph => .Start .UnindentedParagraph
    | .End .Paragraph => .End .UnindentedParagraph
    | _ => e

/-- Whether a `Start`/`End` of `tag` toggles the ignore counter of
`make_uppercase` (lib.rs lines 1532-1554). -/
def uppercaseIgnoreTag : Tag → Bool
  | .CodeBlock _ => true
  | .List _ => true
  | .FootnoteDefinition _ => true
  | .Link _ _ => true
  | .Image _ _ => true
  | .SmallCaps => true
  | .Subscript => true
  | .Superscript => true
  | .FlattenedFootnote => true
  | _ => false

/-- One step of `make_uppercase`: the `ignore` counter (an `i32` in the
source, hence `Int` here) and the rewritten event. -/
def makeUppercaseStep (ignore : Int) (e : Event) : Int × Event :=
  match e with
  | .Text t => (ignore, if ignore = 0 then .Text t.toUpper else .Text t)
  | .Start t => (if uppercaseIgnoreTag t then ignore + 1 else ignore, .Start t)
  | .End t => (if uppercaseIgnoreTag t then ignore - 1 else ignore, .End t)
  | e => (ignore, e)

/-- `make_uppercase` (lib.rs lines 1527-1559), threading the counter. -/
def makeUppercaseFrom (ignore : Int) : List Event → List Event
  | [] => []
  | e :: rest =>
    let (ignore', e') := makeUppercaseStep ignore e
    e' :: makeUppercaseFrom ignore' rest

/-- `make_uppercase` starting from a zero ignore counter. -/
def makeUppercase (events : List Event) : List Event :=
  makeUppercaseFrom 0 events

/-- `remove_initial_title` (lib.rs lines 1507-1525): split off a leading
top-level heading.  If the list opens with `Start (Heading 1)` but no
matching `End (Heading 1)` follows, the Rust code panics on `unwrap`; that
situation cannot arise for Token Source output and the model then returns
the list unchanged. -/
def removeInitialTitle (events : List Event) : Option (List Event) × List Event :=
  match events with
  | .Start (.Heading 1) :: _ =>
    match events.findIdx? (fun e =>
        match e with | .End (.Heading 1) => true | _ => false) with
    | some idx =>
      (some (((events.take (idx + 1)).drop 1).dropLast), events.drop (idx + 1))
    | none => (none, events)
  | _ => (none, events)

/-! ## Division classifier (`StepLevel`, lib.rs lines 525-556) -/

/-- `StepLevel`: what a top-level markdown heading in mainmatter represents. -/
inductive StepLevel
  | TopToParts
  | TopToChapter
deriving DecidableEq, Repr

/-- Whether a `Start (Heading lvl)` occurs in `events`. -/
def hasHeadingLevel (lvl : Nat) (events : List Event) : Bool :=
  events.any fun e =>
    match e with | .Start (.Heading h) => h = lvl | _ => false

/-- Whether a heading of some level other than 1 and 2 starts in `events`. -/
def hasOtherHeadingLevel (events : List Event) : Bool :=
  events.any fun e =>
    match e with
    | .Start (.Heading h) => ¬(h = 1) ∧ ¬(h = 2)
    | _ => false

/-- `StepLevel::get` (lib.rs lines 531-555): the heading-level histogram
decides between parts-with-chapters and chapters-only mode. -/
def StepLevel.get (events : List Event) : StepLevel :=
  let hasL1 := hasHeadingLevel 1 events
  let hasL2 := hasHeadingLevel 2 events
  let hasLn := hasOtherHeadingLevel events
  match hasL1, hasL2, hasLn with
  | true, true, _ => .TopToParts
  | true, false, true => .TopToChapter
  | false, true, true => .TopToParts
  | false, true, false => .TopToChapter
  | false, false, false => .TopToChapter
  | true, false, false => .TopToChapter
  | false, false, true => .TopToChapter

/-! ## `divide_into_sections` (lib.rs lines 1561-1652)

The Rust function is one loop whose body matches on the precomputed
`step_level`; it is embedded as one recursive function per mode, each
consuming the event list and threading the `in_chapter` flag and the `u8`
part/chapter counters.  The trailing `if in_chapter { push EndSemantic }`
becomes the `[]` case. -/

/-- The `StepLevel::TopToChapter` arm of `divide_into_sections` together
with the trailing close of an open chapter. -/
def divideGoChapter (inChapter : Bool) (chapterCount : Nat) :
    List Event → List BookEvent
  | [] => if inChapter then [.EndSemantic .Chapter] else []
  | e :: rest =>
    match headEv e with
    | .startH h =>
      if h = 1 then
        (if inChapter then [.EndSemantic .Chapter] else []) ++
        .BeginSemantic .Chapter ::
        .BeginDivisionHeader false ::
        .DivisionHeaderLabel SemanticRole.Chapter.getLabel
          (some ((chapterCount + 1) % u8Mod)) .Arabic ::
        divideGoChapter true ((chapterCount + 1) % u8Mod) rest
      else
        .Event (.Start (.Heading ((h + 1) % u32Mod))) ::
        divideGoChapter inChapter chapterCount rest
    | .endH h =>
      if h = 1 then
        .EndDivisionHeader false :: divideGoChapter inChapter chapterCount rest
      else
        .Event (.End (.Heading ((h + 1) % u32Mod))) ::
        divideGoChapter inChapter chapterCount rest
    | .plain => .Event e :: divideGoChapter inChapter chapterCount rest

/-- The `StepLevel::TopToParts` arm of `divide_into_sections` together with
the trailing close of an open chapter. -/
def divideGoParts (inChapter : Bool) (chapterCount partCount : Nat) :
    List Event → List BookEvent
  | [] => if inChapter then [.EndSemantic .Chapter] else []
  | e :: rest =>
    match headEv e with
    | .startH h =>
      if h = 1 then
        (if inChapter then [.EndSemantic .Chapter] else []) ++
        .BeginSemantic .Part ::
        .BeginDivisionHeader false ::
        .DivisionHeaderLabel SemanticRole.Part.getLabel
          (some ((partCount + 1) % u8Mod)) .Roman ::
        divideGoParts false chapterCount ((partCount + 1) % u8Mod) rest
      else if h = 2 then
        (if inChapter then [.EndSemantic .Chapter] else []) ++
        .BeginSemantic .Chapter ::
        .BeginDivisionHeader false ::
        .DivisionHeaderLabel SemanticRole.Chapter.getLabel
          (some ((chapterCount + 1) % u8Mod)) .Arabic ::
        divideGoParts true ((chapterCount + 1) % u8Mod) partCount rest
      else
        .Event (.Start (.Heading ((h + 2) % u32Mod))) ::
        divideGoParts inChapter chapterCount partCount rest
    | .endH h =>
      if h = 1 then
        .EndDivisionHeader false ::
        .EndSemantic .Part ::
        divideGoParts inChapter chapterCount partCount rest
      else if h = 2 then
        .EndDivisionHeader false ::
        divideGoParts inChapter chapterCount partCount rest
      else
        .Event (.End (.Heading ((h + 2) % u32Mod))) ::
        divideGoParts inChapter chapterCount partCount rest
    | .plain => .Event e :: divideGoParts inChapter chapterCount partCount rest

/-- `divide_into_sections` (lib.rs lines 1561-1652). -/
def divideIntoSections (events : List Event) : List BookEvent :=
  match StepLevel.get events with
  | .TopToChapter => divideGoChapter false 0 events
  | .TopToParts => divideGoParts false 0 0 events

/-! ## Metadata (`bookbinder_ast/src/metadata.rs`)

Only the fields `process` and the titlepage generator read are modelled;
the remaining fields (ISBNs, publisher data, copyright flags) influence the
book only through the generated copyright-page *string*, whose parse is
abstracted into the Token Source environment below. -/

/-- The modelled slice of `Metadata` (metadata.rs lines 6-39). -/
structure Metadata where
  title : String
  shorttitle : Option String := none
  subtitle : Option String := none
  authors : List String := []
  editors : List String := []
  translators : List String := []
  forewordAuthors : List String := []
  introductionAuthors : List String := []
  afterwordAuthors : List String := []
  introductionAndNotesAuthors : List String := []
deriving DecidableEq, Repr

/-- `Metadata::new` (metadata.rs lines 43-48). -/
def Metadata.new (title : String) : Metadata := { title }

/-- `Metadata::get_short_title` (metadata.rs lines 51-54). -/
def Metadata.getShortTitle (m : Metadata) : String :=
  m.shorttitle.getD m.title

/-- `Metadata::has_no_introduction_authors` (metadata.rs lines 71-73). -/
def Metadata.hasNoIntroductionAuthors (m : Metadata) : Bool :=
  m.introductionAuthors.isEmpty && m.introductionAndNotesAuthors.isEmpty

/-- `Metadata::get_titlepage_contributors` (metadata.rs lines 266-294). -/
def Metadata.getTitlepageContributors (m : Metadata) :
    List (TitlePageContributorRole × List String) :=
  (if ¬m.authors.isEmpty then [(TitlePageContributorRole.Author, m.authors)] else []) ++
  (if ¬m.editors.isEmpty then [(TitlePageContributorRole.Editor, m.editors)] else []) ++
  (if ¬m.translators.isEmpty then
    [(TitlePageContributorRole.Translator, m.translators)] else []) ++
  (if ¬m.forewordAuthors.isEmpty then
    [(TitlePageContributorRole.ForewordAuthor, m.forewordAuthors)] else []) ++
  (if ¬m.afterwordAuthors.isEmpty then
    [(TitlePageContributorRole.AfterwordAuthor, m.afterwordAuthors)] else []) ++
  (if ¬m.introductionAuthors.isEmpty then
    [(TitlePageContributorRole.IntroductionAuthor, m.introductionAuthors)] else []) ++
  (if ¬m.introductionAndNotesAuthors.isEmpty then
    [(TitlePageContributorRole.IntroductionAndNotesAuthor,
      m.introductionAndNotesAuthors)] else [])

/-! ## The content accumulator (`BookSrcBuilder`, lib.rs lines 229-1072)

Builder operations receive the token sequences that the Token Source would
have produced for their textual arguments (`parse_plain` for body text,
`parse_inline_plain` for titles and inline fragments); the `Vec<Event>`
instance of `ParseHelper` makes `parse_plain` the identity on token lists,
so this is the builder exercised at that instance.  The `image_dirs`
bookkeeping of the `*_from_file` wrappers is absorbed into the abstract
image resolver of the environment. -/

/-- The modelled `BookSrcBuilder` state (lib.rs lines 230-250).
`appendicesCount` is the `u8` field, `epigraphCount` the `usize` field. -/
structure Builder where
  halftitle : List BookEvent := []
  copyrightPage : List BookEvent := []
  dedication : List BookEvent := []
  forewords : List BookEvent := []
  epigraphs : List BookEvent := []
  introductions : List BookEvent := []
  prefaces : List BookEvent := []
  mainmatter : List Event := []
  appendices : List BookEvent := []
  afterwords : List BookEvent := []
  colophon : List BookEvent := []
  acknowledgements : List BookEvent := []
  metadata : Metadata
  appendicesCount : Nat := 0
  epigraphCount : Nat := 0
  noTitlepage : Bool := false
  noCopyrightpage : Bool := false
  noHalftitle : Bool := false
deriving DecidableEq, Repr

/-- `BookSrcBuilder::new` (lib.rs lines 560-565). -/
def Builder.new (title : String) : Builder :=
  { metadata := Metadata.new title }

/-- `wrap_division` (lib.rs lines 1661-1664). -/
def wrapDivision (role : SemanticRole) (events : List BookEvent) :
    List BookEvent :=
  .BeginSemantic role :: events ++ [.EndSemantic role]

/-- The events stored by `set_halftitle` (lib.rs lines 693-705):
uppercased inline tokens inside a division header, wrapped as a `Halftitle`
division. -/
def halftitleEvents (tokens : List Event) : List BookEvent :=
  wrapDivision .Halftitle
    (.BeginDivisionHeader false ::
      (makeUppercase tokens).map .Event ++ [.EndDivisionHeader false])

/-- The events stored by `add_copyright_page` (lib.rs lines 587-622):
with a title the page is assembled around an uppercased bold sans heading
paragraph, otherwise the unindented body is simply wrapped. -/
def copyrightPageEvents (src : List Event) (title : Option (List Event)) :
    List BookEvent :=
  let events := makeParagraphsUnindented src
  match title with
  | some t =>
    let t := makeUppercase t
    .BeginSemantic .Copyrightpage ::
    .Event (.Start .UnindentedParagraph) ::
    .Event (.Start .Sans) ::
    .Event (.Start .Strong) ::
    t.map .Event ++
    .Event (.End .Strong) ::
    .Event (.End .Sans) ::
    .Event (.End .UnindentedParagraph) ::
    events.map .Event ++
    [.EndSemantic .Copyrightpage]
  | none => wrapDivision .Copyrightpage (events.map .Event)

/-- The events stored by `set_colophon` (lib.rs lines 718-731). -/
def colophonEvents (tokens : List Event) : List BookEvent :=
  .BeginSemantic .Colophon ::
  .BeginDivisionHeader false ::
  .EndDivisionHeader false ::
  .Event (.Start .UnindentedParagraph) ::
  tokens.map .Event ++
  [.Event (.End .UnindentedParagraph), .EndSemantic .Colophon]

/-- The title/text split shared by the ancillary-text adders: an explicit
title is inline-parsed, otherwise a leading top-level heading is split off
the body (`parse_and_remove_initial_title`). -/
def splitTitle (text : List Event) (title : Option (List Event)) :
    Option (List Event) × List Event :=
  match title with
  | none => removeInitialTitle text
  | some t => (some t, text)

/-- The division built by the `add_authored_ancillary_text!` macro body
(lib.rs lines 393-434): header with optional title tokens, the role's
default label, and the authors, followed by the body. -/
def authoredAncillaryEvents (role : SemanticRole) (text : List Event)
    (title : Option (List Event)) (authors : List String) : List BookEvent :=
  let (title, text) := splitTitle text title
  .BeginSemantic role ::
  .BeginDivisionHeader false ::
  (title.getD []).map .Event ++
  (match role.getLabel with
   | some l => [.DivisionHeaderLabel (some l) none .Arabic]
   | none => []) ++
  (if ¬authors.isEmpty then [.DivisionAuthors authors] else []) ++
  .EndDivisionHeader false ::
  text.map .Event ++
  [.EndSemantic role]

/-- The division built by the `add_unauthored_ancillary_text!` macro body
(lib.rs lines 482-521). -/
def unauthoredAncillaryEvents (role : SemanticRole) (text : List Event)
    (title : Option (List Event)) : List BookEvent :=
  let (title, text) := splitTitle text title
  .BeginSemantic role ::
  .BeginDivisionHeader false ::
  (title.getD []).map .Event ++
  (match role.getLabel with
   | some l => [.DivisionHeaderLabel (some l) none .Arabic]
   | none => []) ++
  .EndDivisionHeader false ::
  text.map .Event ++
  [.EndSemantic role]

/-- The division built by `add_appendix` (lib.rs lines 782-817); `count` is
the builder's `appendices_count` *before* its post-increment, so the first
appendix is numbered 0 (rendered as the letter A). -/
def appendixEvents (text : List Event) (title : Option (List Event))
    (count : Nat) : List BookEvent :=
  let (title, text) := splitTitle text title
  .BeginSemantic .Appendix ::
  .BeginDivisionHeader false ::
  (title.getD []).map .Event ++
  [.DivisionHeaderLabel (some "Appendix") (some count) .Letter] ++
  .EndDivisionHeader false ::
  text.map .Event ++
  [.EndSemantic .Appendix]

/-- The first-paragraph rewrite of `add_epigraph` (lib.rs lines 852-860):
when the text opens a paragraph, that paragraph becomes unindented.  The
source `unwrap`s the matching `End (Paragraph)`; if there is none (never the
case for Token Source output) the model leaves the end unchanged where the
source would panic. -/
def unindentFirstParagraph (text : List Event) : List Event :=
  match text with
  | .Start .Paragraph :: _ =>
    let text := text.set 0 (.Start .UnindentedParagraph)
    match text.findIdx? (fun e =>
        match e with | .End .Paragraph => true | _ => false) with
    | some i => text.set i (.End .UnindentedParagraph)
    | none => text
  | _ => text

/-- The events appended by `add_epigraph` (lib.rs lines 843-872). -/
def epigraphEvents (text : List Event) (source : Option (List Event)) :
    List BookEvent :=
  .BeginSemantic .Epigraph ::
  .BeginEpigraphText ::
  (unindentFirstParagraph text).map .Event ++
  [.EndEpigraphText] ++
  (match source with
   | some s => .BeginEpigraphSource :: s.map .Event ++ [.EndEpigraphSource]
   | none => []) ++
  [.EndSemantic .Epigraph]

/-- One call against the builder.  Textual arguments carry the Token
Source's output for them.  `addExplicitEpigraph` is kept separate because
the claims name it, though `add_explicit_epigraph` (lib.rs lines 878-914)
just formats a source string and delegates to `add_epigraph`. -/
inductive BuilderCall
  | setHalftitle (tokens : List Event)
  | addCopyrightPage (src : List Event) (title : Option (List Event))
  | setDedication (tokens : List Event)
  | setColophon (tokens : List Event)
  | addForeword (text : List Event) (title : Option (List Event))
      (authors : List String)
  | addAfterword (text : List Event) (title : Option (List Event))
      (authors : List String)
  | addIntroduction (text : List Event) (title : Option (List Event))
      (authors : List String)
  | addPreface (text : List Event) (title : Option (List Event))
  | addAcknowledgements (text : List Event) (title : Option (List Event))
  | addAppendix (text : List Event) (title : Option (List Event))
  | addMainmatter (tokens : List Event)
  | addEpigraph (text : List Event) (source : Option (List Event))
  | addExplicitEpigraph (text : List Event) (source : Option (List Event))
  | doNotGenerateHalftitle
  | doNotGenerateTitlepage
  | doNotGenerateCopyrightpage
  | author (names : List String)
  | editor (names : List String)
  | translator (names : List String)
  | subtitle (s : String)
  | shorttitle (s : String)
deriving DecidableEq, Repr

/-- The state transition of one builder call (`BookSrcBuilder` methods,
lib.rs lines 568-914). -/
def applyCall (b : Builder) : BuilderCall → Builder
  | .setHalftitle tokens => { b with halftitle := halftitleEvents tokens }
  | .addCopyrightPage src title =>
    { b with copyrightPage := copyrightPageEvents src title }
  | .setDedication tokens =>
    { b with dedication := wrapDivision .Dedication (tokens.map .Event) }
  | .setColophon tokens => { b with colophon := colophonEvents tokens }
  | .addForeword text title authors =>
    { b with
      forewords := b.forewords ++
        authoredAncillaryEvents .Foreword text title authors
      metadata := { b.metadata with
        forewordAuthors := b.metadata.forewordAuthors ++ authors } }
  | .addAfterword text title authors =>
    { b with
      afterwords := b.afterwords ++
        authoredAncillaryEvents .Afterword text title authors
      metadata := { b.metadata with
        afterwordAuthors := b.metadata.afterwordAuthors ++ authors } }
  | .addIntroduction text title authors =>
    { b with
      introductions := b.introductions ++
        authoredAncillaryEvents .Introduction text title authors
      metadata := { b.metadata with
        introductionAuthors := b.metadata.introductionAuthors ++ authors } }
  | .addPreface text title =>
    { b with prefaces := b.prefaces ++
        unauthoredAncillaryEvents .Preface text title }
  | .addAcknowledgements text title =>
    { b with acknowledgements := b.acknowledgements ++
        unauthoredAncillaryEvents .Acknowledgements text title }
  | .addAppendix text title =>
    { b with
      appendices := b.appendices ++ appendixEvents text title b.appendicesCount
      appendicesCount := (b.appendicesCount + 1) % u8Mod }
  | .addMainmatter tokens => { b with mainmatter := b.mainmatter ++ tokens }
  | .addEpigraph text source =>
    { b with
      epigraphs := b.epigraphs ++ epigraphEvents text source
      epigraphCount := b.epigraphCount + 1 }
  | .addExplicitEpigraph text source =>
    { b with
      epigraphs := b.epigraphs ++ epigraphEvents text source
      epigraphCount := b.epigraphCount + 1 }
  | .doNotGenerateHalftitle => { b with noHalftitle := true }
  | .doNotGenerateTitlepage => { b with noTitlepage := true }
  | .doNotGenerateCopyrightpage => { b with noCopyrightpage := true }
  | .author names =>
    { b with metadata := { b.metadata with
        authors := b.metadata.authors ++ names } }
  | .editor names =>
    { b with metadata := { b.metadata with
        editors := b.metadata.editors ++ names } }
  | .translator names =>
    { b with metadata := { b.metadata with
        translators := b.metadata.translators ++ names } }
  | .subtitle s => { b with metadata := { b.metadata with subtitle := some s } }
  | .shorttitle s =>
    { b with metadata := { b.metadata with shorttitle := some s } }

/-- Fold a sequence of builder calls over a builder. -/
def applyCalls (b : Builder) : List BuilderCall → Builder
  | [] => b
  | c :: rest => applyCalls (applyCall b c) rest

/-! ## The stream assembler (`process`, lib.rs lines 959-1071) -/

/-- The external collaborators `process` consumes: the Token Source's two
parsing entry points, the copyright-page text generator (which mixes
metadata with the current year and ISBN display, all outside the core), and
the image resolver standing for `replace_missing_image_paths`'s filesystem
search (lib.rs lines 1666-1719): `resolveImage d = some p` means the missing
path `d` was found in a known source directory at `p`; `none` means it
either exists already or stays unresolved (a warning, not an error). -/
structure Env where
  parseInline : String → List Event
  parsePlain : String → List Event
  copyrightText : Metadata → String
  resolveImage : String → Option String

/-- The token rewrite performed by `replace_missing_image_paths`:
only image destinations change. -/
def resolveEventToken (env : Env) : Event → Event
  | .Start (.Image dest title) =>
    .Start (.Image ((env.resolveImage dest).getD dest) title)
  | .End (.Image dest title) =>
    .End (.Image ((env.resolveImage dest).getD dest) title)
  | e => e

/-- The per-event rewrite performed by `replace_missing_image_paths`:
only `Event`-wrapped tokens are touched, and of those only images. -/
def resolveEvent (env : Env) : BookEvent → BookEvent
  | .Event e => .Event (resolveEventToken env e)
  | e => e

/-- `replace_missing_image_paths` over a whole stream. -/
def resolveImages (env : Env) (events : List BookEvent) : List BookEvent :=
  events.map (resolveEvent env)

/-- `get_titlepage` (lib.rs lines 916-937). -/
def getTitlepage (env : Env) (m : Metadata) : List BookEvent :=
  .BeginTitlePage ::
  .BeginTitlePageTitle ::
  (env.parseInline m.title).map .Event ++
  [.EndTitlePageTitle] ++
  (match m.subtitle with
   | some s =>
     .BeginTitlePageSubTitle :: (env.parseInline s).map .Event ++
     [.EndTitlePageSubTitle]
   | none => []) ++
  [.TitlePageContributors m.getTitlepageContributors, .EndTitlePage]

/-- A processed book source (`BookSrc`, lib.rs lines 1076-1085). -/
structure BookSrc where
  metadata : Metadata
  contents : List BookEvent
  expectedAppendicesCount : Nat
  expectedEpigraphCount : Nat
deriving DecidableEq, Repr

/-- Whether any backmatter buffer is non-empty — the condition under which
`process` emits `BeginBackmatter` (lib.rs lines 1040-1046). -/
def Builder.hasBackmatter (b : Builder) : Bool :=
  ¬b.appendices.isEmpty || ¬b.afterwords.isEmpty ||
  ¬b.acknowledgements.isEmpty || ¬b.colophon.isEmpty

/-- The halftitle `process` uses: the explicitly set one, or — unless
suppressed — one generated from the short title (falling back to the
title), exactly as `set_halftitle` would store it (lib.rs lines 972-984). -/
def generatedHalftitle (env : Env) (b : Builder) : List BookEvent :=
  if ¬b.noHalftitle ∧ b.halftitle.isEmpty then
    halftitleEvents
      (env.parseInline (b.metadata.shorttitle.getD b.metadata.title))
  else b.halftitle

/-- The copyright page `process` uses: the explicitly set one, or — unless
suppressed — one generated from the metadata's copyright text under the
short title (lib.rs lines 986-990). -/
def generatedCopyrightPage (env : Env) (b : Builder) : List BookEvent :=
  if ¬b.noCopyrightpage ∧ b.copyrightPage.isEmpty then
    copyrightPageEvents (env.parsePlain (env.copyrightText b.metadata))
      (some (env.parseInline b.metadata.getShortTitle))
  else b.copyrightPage

/-- Everything `process` emits between `BeginFrontmatter` and
`BeginMainmatter` (lib.rs lines 1002-1036); epigraphs go before the
introductions unless the introductions have credited authors. -/
def frontSegment (env : Env) (b : Builder) : List BookEvent :=
  (if ¬b.noHalftitle then generatedHalftitle env b else []) ++
  ((if b.noTitlepage then none
    else some (getTitlepage env b.metadata)).getD []) ++
  (if ¬b.noCopyrightpage then generatedCopyrightPage env b else []) ++
  b.dedication ++
  b.forewords ++
  (if b.metadata.hasNoIntroductionAuthors then
    b.epigraphs ++ b.introductions
   else
    b.introductions ++ b.epigraphs) ++
  b.prefaces

/-- Everything `process` emits after `BeginMainmatter` (lib.rs lines
1037-1051): the divided mainmatter, then `BeginBackmatter` when any
backmatter buffer is non-empty, then the backmatter buffers. -/
def mainSegment (b : Builder) : List BookEvent :=
  divideIntoSections b.mainmatter ++
  (if b.hasBackmatter then [.BeginBackmatter] else []) ++
  b.appendices ++
  b.afterwords ++
  b.acknowledgements ++
  b.colophon

/-- `BookSrcBuilder::process` (lib.rs lines 959-1071): generate the missing
halftitle/titlepage/copyright page, classify and divide the mainmatter,
concatenate everything in canonical order around the matter markers, and
resolve image paths.  The `add_if_not_empty!` guards of the source skip
empty buffers, which is the same stream as appending them. -/
def process (env : Env) (b : Builder) : BookSrc :=
  { metadata := b.metadata
    contents := resolveImages env
      ([BookEvent.BeginFrontmatter] ++ frontSegment env b ++
       [BookEvent.BeginMainmatter] ++ mainSegment b)
    expectedEpigraphCount := b.epigraphCount
    expectedAppendicesCount := b.appendicesCount }

/-! ## The stack-based balance validator (spec §8 "Balance")

The validator pushes on every paired `Begin*` book event and pops on the
matching `End*`, checking that the popped region tag agrees.  The three
matter markers (`BeginFrontmatter`, `BeginMainmatter`, `BeginBackmatter`)
are standalone section boundaries — the data model has no `End` variant for
them (spec §3) — so they pass through the validator like plain events. -/

/-- The kind of region a paired `Begin*`/`End*` event opens or closes. -/
inductive RegionTag
  | semantic (role : SemanticRole)
  | divisionHeader (starred : Bool)
  | titlePage
  | titlePageTitle
  | titlePageSubTitle
  | epigraphText
  | epigraphSource
deriving DecidableEq, Repr

/-- The region opened by an event, if it is a paired `Begin*`. -/
def beginTag : BookEvent → Option RegionTag
  | .BeginSemantic r => some (.semantic r)
  | .BeginDivisionHeader b => some (.divisionHeader b)
  | .BeginTitlePage => some .titlePage
  | .BeginTitlePageTitle => some .titlePageTitle
  | .BeginTitlePageSubTitle => some .titlePageSubTitle
  | .BeginEpigraphText => some .epigraphText
  | .BeginEpigraphSource => some .epigraphSource
  | _ => none

/-- The region closed by an event, if it is an `End*`. -/
def endTag : BookEvent → Option RegionTag
  | .EndSemantic r => some (.semantic r)
  | .EndDivisionHeader b => some (.divisionHeader b)
  | .EndTitlePage => some .titlePage
  | .EndTitlePageTitle => some .titlePageTitle
  | .EndTitlePageSubTitle => some .titlePageSubTitle
  | .EndEpigraphText => some .epigraphText
  | .EndEpigraphSource => some .epigraphSource
  | _ => none

/-- Run the stack validator over a stream from a given stack; `none` means
an underflow or a crossing (mismatched pop). -/
def runValidator : List BookEvent → List RegionTag → Option (List RegionTag)
  | [], stack => some stack
  | e :: rest, stack =>
    match beginTag e with
    | some t => runValidator rest (t :: stack)
    | none =>
      match endTag e with
      | some t =>
        match stack with
        | [] => none
        | t' :: stack' =>
          if t = t' then runValidator rest stack' else none
      | none => runValidator rest stack

/-- A stream is balanced when the validator, started on the empty stack,
never underflows, never crosses, and ends with the empty stack. -/
def Balanced (events : List BookEvent) : Prop :=
  runValidator events [] = some []

instance (events : List BookEvent) : Decidable (Balanced events) := by
  unfold Balanced; infer_instance

/-- A segment is neutral when the validator passes through it leaving any
ambient stack untouched: it is internally balanced and never pops into its
surroundings. -/
def Neutral (events : List BookEvent) : Prop :=
  ∀ stack, runValidator events stack = some stack

/-! ## Heading well-formedness of Token Source output

The Token Source (`extended_pulldown`) guarantees that `Start`/`End`
events are balanced and that headings are leaf blocks: a heading's
`Start`/`End` pair encloses no other heading markers.  `headScan` checks
exactly that property of the heading markers — the only tokens whose
structure `divide_into_sections` relies on. -/

/-- Scan heading markers, tracking the currently open heading level;
`none` as result means a violation, `some st` the final open heading. -/
def headScan (st : Option Nat) : List Event → Option (Option Nat)
  | [] => some st
  | e :: rest =>
    match headEv e with
    | .startH h =>
      match st with
      | none => headScan (some h) rest
      | some _ => none
    | .endH h => if st = some h then headScan none rest else none
    | .plain => headScan st rest

/-- A token sequence is heading-clean when every heading `Start` is closed
by a matching `End` before any other heading marker occurs, and no heading
is open at the end — true of all Token Source output. -/
def HeadingClean (l : List Event) : Prop :=
  headScan none l = some none

instance (l : List Event) : Decidable (HeadingClean l) := by
  unfold HeadingClean; infer_instance

/-- The validator stack while scanning chapters-only mainmatter: an open
chapter region, plus its division header while inside a level-1 heading. -/
def chapterStack (st : Option Nat) (inChapter : Bool) : List RegionTag :=
  (if st = some 1 then [.divisionHeader false] else []) ++
  (if inChapter then [.semantic .Chapter] else [])

/-- The validator stack while scanning parts-with-chapters mainmatter. -/
def partsStack : Option Nat → Bool → List RegionTag
  | some 1, _ => [.divisionHeader false, .semantic .Part]
  | some 2, _ => [.divisionHeader false, .semantic .Chapter]
  | some (_ + 3), inChapter => if inChapter then [.semantic .Chapter] else []
  | some 0, inChapter => if inChapter then [.semantic .Chapter] else []
  | none, inChapter => if inChapter then [.semantic .Chapter] else []

/-- The invariant the content accumulator maintains: every stored
event buffer is a neutral (internally balanced, non-popping) segment, and
the accumulated raw mainmatter is heading-clean. -/
structure GoodBuilder (b : Builder) : Prop where
  halftitle : Neutral b.halftitle
  copyrightPage : Neutral b.copyrightPage
  dedication : Neutral b.dedication
  forewords : Neutral b.forewords
  epigraphs : Neutral b.epigraphs
  introductions : Neutral b.introductions
  prefaces : Neutral b.prefaces
  appendices : Neutral b.appendices
  afterwords : Neutral b.afterwords
  colophon : Neutral b.colophon
  acknowledgements : Neutral b.acknowledgements
  mainClean : HeadingClean b.mainmatter

/-- Whether the addMainmatter fragments of a builder call are heading-clean
(a fact about Token Source output that is a hypothesis of the balance
claim); every other call preserves the invariant without side conditions. -/
def CallClean : BuilderCall → Prop
  | .addMainmatter tokens => HeadingClean tokens
  | _ => True

instance (c : BuilderCall) : Decidable (CallClean c) := by
  unfold CallClean; cases c <;> infer_instance


/-! ## Observations of the division stream used by the numbering,
classification and nesting claims -/

/-- The number carried by a division-header label whose text is `Chapter`. -/
def chapterNumOf : BookEvent → Option Nat
  | .DivisionHeaderLabel (some t) (some n) _ =>
    if t = "Chapter" then some n else none
  | _ => none

/-- The chapter-label numbers of a stream, in stream order. -/
def chapterLabelNumbers (out : List BookEvent) : List Nat :=
  out.filterMap chapterNumOf

/-- How many headings of level `lvl` start in a token sequence. -/
def countHeadingStarts (lvl : Nat) (l : List Event) : Nat :=
  l.countP fun e => decide (headEv e = .startH lvl)

/-- The reference sequence of a `u8` counter that starts at `cnt` and is
incremented (wrapping) before each emission, `k` times. -/
def modCounterSeq (cnt : Nat) : Nat → List Nat
  | 0 => []
  | k + 1 => ((cnt + 1) % u8Mod) :: modCounterSeq ((cnt + 1) % u8Mod) k

/-- A heading marker of a token: its direction and level. -/
def headingMarkerOf (e : Event) : Option (Bool × Nat) :=
  match headEv e with
  | .startH h => some (true, h)
  | .endH h => some (false, h)
  | .plain => none

/-- The heading markers of a token sequence. -/
def headingMarkers (l : List Event) : List (Bool × Nat) :=
  l.filterMap headingMarkerOf

/-- The heading markers of the token events inside a book-event stream. -/
def bookHeadingMarkers (out : List BookEvent) : List (Bool × Nat) :=
  out.filterMap fun be =>
    match be with
    | .Event e => headingMarkerOf e
    | _ => none

/-- Parts-with-chapters mode consumes level-1 and level-2 headings and
shifts every other heading level down by two (`u32` wrapping). -/
def shiftPartsMode (m : Bool × Nat) : Option (Bool × Nat) :=
  if m.2 = 1 ∨ m.2 = 2 then none else some (m.1, (m.2 + 2) % u32Mod)

/-- Chapters-only mode consumes level-1 headings and shifts every other
heading level down by one (`u32` wrapping). -/
def shiftChapterMode (m : Bool × Nat) : Option (Bool × Nat) :=
  if m.2 = 1 then none else some (m.1, (m.2 + 1) % u32Mod)

/-- The semantic-division marker of a book event, if any. -/
def semMarkerOf : BookEvent → Option (Bool × SemanticRole)
  | .BeginSemantic r => some (true, r)
  | .EndSemantic r => some (false, r)
  | _ => none

/-- The trace of semantic-division markers of a stream. -/
def semTrace (out : List BookEvent) : List (Bool × SemanticRole) :=
  out.filterMap semMarkerOf

/-- Scan a semantic trace checking that every `BeginSemantic Part` is
immediately followed, within the trace, by `EndSemantic Part` — i.e. Part
regions enclose no other semantic region.  The flag records an open Part. -/
def partsClosedFrom : Bool → List (Bool × SemanticRole) → Bool
  | opened, [] => !opened
  | true, m :: rest =>
    decide (m = (false, .Part)) && partsClosedFrom false rest
  | false, m :: rest =>
    if m = (true, .Part) then partsClosedFrom true rest
    else partsClosedFrom false rest

/-- Scan a stream checking that every `EndSemantic Part` is immediately
preceded by an `EndDivisionHeader`; the flag records whether the previous
event was an `EndDivisionHeader`. -/
def endPartOkFrom (prevIsEndHeader : Bool) : List BookEvent → Bool
  | [] => true
  | e :: rest =>
    (match e with
     | .EndSemantic .Part => prevIsEndHeader
     | _ => true) &&
    endPartOkFrom
      (match e with | .EndDivisionHeader _ => true | _ => false) rest

/-! ## The header formatter (`BookSrc::change_headers`, lib.rs lines
1089-1274)

The Rust function makes one pass collecting mutable references to the
chapter/part header labels and header text events (tracked through the
`in_chapter`/`in_part`/`in_chapter_header`/`in_part_header` flags) and then
mutates each collected reference according to the chosen formats.  Since
the classification depends only on the original stream (the mutated event
kinds never drive the flags) and each mutation depends only on the event,
its classification and the options, this is embedded as one
classify-and-rewrite pass. -/

/-- `HeaderFormat` (lib.rs lines 1279-1290). -/
inductive HeaderFormat
  | NumberAlone
  | TitleAlone
  | LabelAndNumberAndTitle
  | LabelAlone
  | NumberAndTitle
deriving DecidableEq, Repr

/-- `TextHeaderOptions` (lib.rs lines 1300-1309). -/
structure TextHeaderOptions where
  chapterHeaderFormat : HeaderFormat
  partHeaderFormat : HeaderFormat
  chapterNumberFormat : NumberFormat
  partNumberFormat : NumberFormat
deriving DecidableEq, Repr

/-- The `Default` impl of `TextHeaderOptions` (lib.rs lines 1311-1320). -/
def TextHeaderOptions.default : TextHeaderOptions :=
  { chapterHeaderFormat := .LabelAndNumberAndTitle
    partHeaderFormat := .LabelAndNumberAndTitle
    chapterNumberFormat := .Arabic
    partNumberFormat := .Roman }

/-- How `change_headers` classifies one event of the stream: a label or a
text event inside a chapter/part division header, or anything else. -/
inductive HeaderClass
  | chapterLabel
  | partLabel
  | chapterText
  | partText
  | plain
deriving DecidableEq, Repr

instance : Inhabited HeaderClass := ⟨HeaderClass.plain⟩

/-- The four scanning flags of `change_headers` (lib.rs lines 1090-1093). -/
structure CHState where
  inChapter : Bool := false
  inPart : Bool := false
  inChapterHeader : Bool := false
  inPartHeader : Bool := false
deriving DecidableEq, Repr

/-- One step of the collection pass of `change_headers` (lib.rs lines
1098-1148), with the source's match-arm order: the chapter guard is tested
before the part guard. -/
def chStep (st : CHState) : BookEvent → CHState × HeaderClass
  | .BeginSemantic .Chapter => ({ st with inChapter := true }, .plain)
  | .EndSemantic .Chapter => ({ st with inChapter := false }, .plain)
  | .BeginSemantic .Part => ({ st with inPart := true }, .plain)
  | .EndSemantic .Part => ({ st with inPart := false }, .plain)
  | .BeginDivisionHeader _ =>
    if st.inChapter then ({ st with inChapterHeader := true }, .plain)
    else if st.inPart then ({ st with inPartHeader := true }, .plain)
    else (st, .plain)
  | .EndDivisionHeader _ =>
    if st.inChapter then ({ st with inChapterHeader := false }, .plain)
    else if st.inPart then ({ st with inPartHeader := false }, .plain)
    else (st, .plain)
  | .DivisionHeaderLabel _ _ _ =>
    if st.inChapterHeader then (st, .chapterLabel)
    else if st.inPartHeader then (st, .partLabel)
    else (st, .plain)
  | .Event (.Text _) =>
    if st.inChapterHeader then (st, .chapterText)
    else if st.inPartHeader then (st, .partText)
    else (st, .plain)
  | _ => (st, .plain)

/-- The chapter-format mutation block of `change_headers` (lib.rs lines
1149-1210), applied to an event with its classification; events not
collected as chapter labels or chapter header text are untouched. -/
def applyChapterFormat (fmt : HeaderFormat) (n : NumberFormat)
    (cls : HeaderClass) (e : BookEvent) : BookEvent :=
  match fmt with
  | .NumberAlone =>
    match cls, e with
    | .chapterLabel, .DivisionHeaderLabel t num _ =>
      .DivisionHeaderLabel t num n
    | .chapterText, _ => .Null
    | _, _ => e
  | .TitleAlone =>
    match cls with
    | .chapterLabel => .Null
    | _ => e
  | .LabelAndNumberAndTitle =>
    match cls, e with
    | .chapterLabel, .DivisionHeaderLabel t num _ =>
      .DivisionHeaderLabel t num n
    | _, _ => e
  | .LabelAlone =>
    match cls, e with
    | .chapterLabel, .DivisionHeaderLabel t num _ =>
      .DivisionHeaderLabel t num n
    | .chapterText, _ => .Null
    | _, _ => e
  | .NumberAndTitle =>
    match cls, e with
    | .chapterLabel, .DivisionHeaderLabel _ num _ =>
      .DivisionHeaderLabel none num n
    | _, _ => e

/-- The part-format mutation block of `change_headers` (lib.rs lines
1211-1273); unlike the chapter block, `LabelAlone` also clears the part
label's number. -/
def applyPartFormat (fmt : HeaderFormat) (n : NumberFormat)
    (cls : HeaderClass) (e : BookEvent) : BookEvent :=
  match fmt with
  | .NumberAlone =>
    match cls, e with
    | .partLabel, .DivisionHeaderLabel t num _ => .DivisionHeaderLabel t num n
    | .partText, _ => .Null
    | _, _ => e
  | .TitleAlone =>
    match cls with
    | .partLabel => .Null
    | _ => e
  | .LabelAndNumberAndTitle =>
    match cls, e with
    | .partLabel, .DivisionHeaderLabel t num _ => .DivisionHeaderLabel t num n
    | _, _ => e
  | .LabelAlone =>
    match cls, e with
    | .partLabel, .DivisionHeaderLabel t _ _ => .DivisionHeaderLabel t none n
    | .partText, _ => .Null
    | _, _ => e
  | .NumberAndTitle =>
    match cls, e with
    | .partLabel, .DivisionHeaderLabel _ num _ =>
      .DivisionHeaderLabel none num n
    | _, _ => e

/-- The full rewrite of one classified event: the chapter block touches
only chapter-classified events and the part block only part-classified
ones, so applying both in sequence is the source's pair of match blocks. -/
def applyHeaderFormats (o : TextHeaderOptions) (cls : HeaderClass)
    (e : BookEvent) : BookEvent :=
  applyPartFormat o.partHeaderFormat o.partNumberFormat cls
    (applyChapterFormat o.chapterHeaderFormat o.chapterNumberFormat cls e)

/-- The classification pass of `change_headers`. -/
def classifyGo (st : CHState) : List BookEvent → List HeaderClass
  | [] => []
  | e :: rest =>
    let (st', cls) := chStep st e
    cls :: classifyGo st' rest

/-- Classify every event of a stream as `change_headers` collects them. -/
def classifyHeaders (l : List BookEvent) : List HeaderClass :=
  classifyGo {} l

/-- The rewrite pass of `change_headers`. -/
def changeHeadersGo (o : TextHeaderOptions) (st : CHState) :
    List BookEvent → List BookEvent
  | [] => []
  | e :: rest =>
    let (st', cls) := chStep st e
    applyHeaderFormats o cls e :: changeHeadersGo o st' rest

/-- `BookSrc::change_headers` (lib.rs lines 1089-1274) on the contents
stream. -/
def changeHeaders (o : TextHeaderOptions) (contents : List BookEvent) :
    List BookEvent :=
  changeHeadersGo o {} contents

/-! ## Observations used by the matter-ordering and count claims -/

/-- The three standalone matter-section boundaries. -/
def isMatterMarker : BookEvent → Bool
  | .BeginFrontmatter => true
  | .BeginMainmatter => true
  | .BeginBackmatter => true
  | _ => false

/-- Satisfied by every book event other than a matter-section boundary. -/
def notMatter (e : BookEvent) : Bool :=
  !isMatterMarker e

/-- A stream segment containing no matter-section boundary. -/
def matterFree (l : List BookEvent) : Bool :=
  l.all notMatter

/-- The builder calls that store backmatter content (the four buffers whose
non-emptiness makes `process` emit `BeginBackmatter`). -/
def isBackmatterCall : BuilderCall → Bool
  | .addAppendix _ _ => true
  | .addAfterword _ _ _ => true
  | .addAcknowledgements _ _ => true
  | .setColophon _ => true
  | _ => false

/-- The builder calls that add an epigraph (`add_epigraph`, and
`add_explicit_epigraph` which delegates to it). -/
def isEpigraphCall : BuilderCall → Bool
  | .addEpigraph _ _ => true
  | .addExplicitEpigraph _ _ => true
  | _ => false

/-- How many epigraphs a call sequence adds. -/
def countEpigraphCalls (calls : List BuilderCall) : Nat :=
  calls.countP isEpigraphCall

/-- Invariant: no builder buffer ever contains a matter-section boundary. -/
structure MatterFreeInv (b : Builder) : Prop where
  halftitle : matterFree b.halftitle = true
  copyrightPage : matterFree b.copyrightPage = true
  dedication : matterFree b.dedication = true
  forewords : matterFree b.forewords = true
  epigraphs : matterFree b.epigraphs = true
  introductions : matterFree b.introductions = true
  prefaces : matterFree b.prefaces = true
  appendices : matterFree b.appendices = true
  afterwords : matterFree b.afterwords = true
  colophon : matterFree b.colophon = true
  acknowledgements : matterFree b.acknowledgements = true

/-- Invariant: the epigraph buffer holds exactly `epigraphCount` many
`EndSemantic Epigraph` events and no other buffer holds any. -/
structure EpiCountInv (b : Builder) : Prop where
  epigraphs : b.epigraphs.count (.EndSemantic .Epigraph) = b.epigraphCount
  halftitle : b.halftitle.count (.EndSemantic .Epigraph) = 0
  copyrightPage : b.copyrightPage.count (.EndSemantic .Epigraph) = 0
  dedication : b.dedication.count (.EndSemantic .Epigraph) = 0
  forewords : b.forewords.count (.EndSemantic .Epigraph) = 0
  introductions : b.introductions.count (.EndSemantic .Epigraph) = 0
  prefaces : b.prefaces.count (.EndSemantic .Epigraph) = 0
  appendices : b.appendices.count (.EndSemantic .Epigraph) = 0
  afterwords : b.afterwords.count (.EndSemantic .Epigraph) = 0
  colophon : b.colophon.count (.EndSemantic .Epigraph) = 0
  acknowledgements : b.acknowledgements.count (.EndSemantic .Epigraph) = 0

/-! ## Collated headers and label/title reconciliation (helpers.rs, C9) -/

/-- `number_to_letter` (bookbinder_common/src/lib.rs lines 307-315). -/
def numberToLetter (n : Nat) : Option Char :=
  if n > 25 then none else some (Char.ofNat (65 + n))

/-- The greedy value table for roman numerals. -/
def romanPairs : List (Nat × String) :=
  [(1000, "M"), (900, "CM"), (500, "D"), (400, "CD"), (100, "C"),
   (90, "XC"), (50, "L"), (40, "XL"), (10, "X"), (9, "IX"),
   (5, "V"), (4, "IV"), (1, "I")]

/-- Greedy roman rendering over the value table. -/
def romanGo : Nat → List (Nat × String) → String
  | _, [] => ""
  | n, (v, s) :: rest =>
    String.join (List.replicate (n / v) s) ++ romanGo (n % v) rest

/-- Modelled from the spec: `number_to_roman`
(bookbinder_common/src/lib.rs lines 324-326) delegates to the build-time
generated module `num_conversions`, which is not in the source tree; the
standard greedy rendering used here agrees with the crate's unit tests
(`number_to_roman(0) = ""`, `number_to_roman(1) = "I"`). -/
def numberToRoman (n : Nat) : String :=
  romanGo n romanPairs

/-- Upper-case words for 0-19. -/
def onesWords : List String :=
  ["ZERO", "ONE", "TWO", "THREE", "FOUR", "FIVE", "SIX", "SEVEN", "EIGHT",
   "NINE", "TEN", "ELEVEN", "TWELVE", "THIRTEEN", "FOURTEEN", "FIFTEEN",
   "SIXTEEN", "SEVENTEEN", "EIGHTEEN", "NINETEEN"]

/-- Upper-case words for the tens. -/
def tensWords : List String :=
  ["", "", "TWENTY", "THIRTY", "FORTY", "FIFTY", "SIXTY", "SEVENTY",
   "EIGHTY", "NINETY"]

/-- Upper-case words for numbers below one hundred. -/
def wordsBelowHundred (n : Nat) : String :=
  if n < 20 then onesWords.getD n ""
  else if n % 10 = 0 then tensWords.getD (n / 10) ""
  else tensWords.getD (n / 10) "" ++ "-" ++ onesWords.getD (n % 10) ""

/-- Modelled from the spec: `number_to_words`
(bookbinder_common/src/lib.rs lines 334-336) delegates to the build-time
generated module `num_conversions`, absent from the source tree; the
rendering here agrees with the crate's unit tests
(`number_to_words(0) = "ZERO"`, `5 = "FIVE"`, `25 = "TWENTY-FIVE"`,
`125 = "ONE HUNDRED AND TWENTY-FIVE"`). -/
def numberToWords (n : Nat) : String :=
  if n < 100 then wordsBelowHundred n
  else if n % 100 = 0 then onesWords.getD (n / 100) "" ++ " HUNDRED"
  else onesWords.getD (n / 100) "" ++ " HUNDRED AND " ++
    wordsBelowHundred (n % 100)

/-- `escape_to_html` (bookbinder_common/src/lib.rs lines 74-102): the
Aho-Corasick pass over the four single-character patterns is a
character-by-character replacement. -/
def escapeToHtml (s : String) : String :=
  String.join (s.toList.map fun c =>
    if c = '<' then "&lt;"
    else if c = '>' then "&gt;"
    else if c = '&' then "&amp;"
    else if c = '\'' then "’"
    else String.singleton c)

/-- `filter_title_events` (helpers.rs lines 62-80): keep text and inline
emphasis/strong/sub/superscript markers only. -/
def isTitleEvent : Event → Bool
  | .Text _ => true
  | .Start .Emphasis => true
  | .End .Emphasis => true
  | .Start .Strong => true
  | .End .Strong => true
  | .Start .Subscript => true
  | .End .Subscript => true
  | .Start .Superscript => true
  | .End .Superscript => true
  | _ => false

/-- The filtering pass of `write_title_text`. -/
def filterTitleEvents (events : List Event) : List Event :=
  events.filter isTitleEvent

/-- The string a filtered event contributes in the EPUB backend
(helpers.rs lines 94-110). -/
def epubTitleChunk : Event → String
  | .Text t => escapeToHtml t
  | .Start .Emphasis => "<em>"
  | .End .Emphasis => "</em>"
  | .Start .Strong => "<strong>"
  | .End .Strong => "</strong>"
  | .Start .Subscript => "<sub>"
  | .End .Subscript => "</sub>"
  | .Start .Superscript => "<sup>"
  | .End .Superscript => "</sup>"
  | _ => ""

/-- Whether any event of a list is a text event (the `some_text` flag of
`write_title_text`). -/
def hasTextEvent (events : List Event) : Bool :=
  events.any fun e => match e with | .Text _ => true | _ => false

/-- `EpubMarker::write_title_text` (helpers.rs lines 88-116). -/
def epubWriteTitleText (events : List Event) : String :=
  let fs := filterTitleEvents events
  if hasTextEvent fs then String.join (fs.map epubTitleChunk) else ""

/-- The `MarkerHelper` trait (helpers.rs lines 44-81) as a record of the
two methods `CollatedHeader` uses. -/
structure Marker where
  escape : String → String
  writeTitleText : List Event → String

/-- The `EpubMarker` instance of `MarkerHelper` (helpers.rs lines
83-117). -/
def epubMarker : Marker :=
  { escape := escapeToHtml, writeTitleText := epubWriteTitleText }

/-- `CollatedHeader` (helpers.rs lines 152-168); the phantom backend
parameter `T` becomes an explicit `Marker` argument of the methods. -/
structure CollatedHeader where
  label_text : Option String
  label_number : Option Nat
  label_number_format : Option NumberFormat
  text : Option (List Event)
  authors : Option (List String)
  is_starred : Bool

/-- `CollatedHeader::get_label_text` (helpers.rs lines 198-200). -/
def CollatedHeader.get_label_text (m : Marker) (h : CollatedHeader) :
    Option String :=
  h.label_text.map m.escape

/-- `CollatedHeader::get_label_number` (helpers.rs lines 204-225). -/
def CollatedHeader.get_label_number (h : CollatedHeader) : Option String :=
  match h.label_number, h.label_number_format with
  | none, _ => none
  | some n, some .Arabic => some (toString n)
  | some n, none => some (toString n)
  | some n, some .Roman => some (numberToRoman n)
  | some n, some .Words => some (numberToWords n)
  | some n, some .Letter =>
    some (match numberToLetter n with
          | some c => String.singleton c
          | none => toString n)

/-- `CollatedHeader::get_title_text` (helpers.rs lines 229-240). -/
def CollatedHeader.get_title_text (m : Marker) (h : CollatedHeader) :
    Option String :=
  match h.text with
  | some text =>
    let t := m.writeTitleText text
    if t = "" then none else some t
  | none => none

/-- `CollatedHeader::get_joined_label` (helpers.rs lines 243-256). -/
def CollatedHeader.get_joined_label (m : Marker) (h : CollatedHeader) :
    Option String :=
  let label_number := h.get_label_number
  let label_text := if h.is_starred then none else h.get_label_text m
  match label_text, label_number with
  | some label, some number => some (label ++ " " ++ number)
  | some label, none => some label
  | none, some number => some number
  | none, none => none

/-- Whether the first character list starts with the second. -/
def strStartsWithGo : List Char → List Char → Bool
  | _, [] => true
  | [], _ :: _ => false
  | c :: cs, d :: ds => c == d && strStartsWithGo cs ds

/-- Rust's `str::starts_with` on characters. -/
def strStartsWith (s p : String) : Bool :=
  strStartsWithGo s.toList p.toList

/-- Rust's `str::to_lowercase`, character by character. -/
def strToLower (s : String) : String :=
  String.mk (s.toList.map Char.toLower)

/-- `CollatedHeader::reconcile_joined_label_and_title` (helpers.rs lines
180-195). -/
def CollatedHeader.reconcile_joined_label_and_title (m : Marker)
    (h : CollatedHeader) : Option (Option String × Option String) :=
  match h.get_joined_label m, h.get_title_text m with
  | none, none => none
  | some label, none => some (none, some label)
  | some label, some title =>
    if strStartsWith (strToLower title) (strToLower label) then
      some (none, some title)
    else some (some label, some title)
  | none, some title => some (none, some title)

/-! ## Mimetype guessing (bookbinder_common/src/mimetypes.rs, claim C5) -/

/-- `MimeType` (mimetypes.rs lines 5-34). -/
inductive MimeType
  | Jpeg
  | Css
  | Epub
  | Png
  | Svg
  | Gif
  | Pdf
  | PlainText
  | Markdown
  | Eps
  | Xhtml
  | Woff
  | OpenType
  | Latex
deriving DecidableEq, Repr

/-- `MimeType::new_from_extension` (mimetypes.rs lines 39-57). -/
def mimeFromExtension : String → Option MimeType
  | "jpg" => some .Jpeg
  | "jpeg" => some .Jpeg
  | "png" => some .Png
  | "svg" => some .Svg
  | "css" => some .Css
  | "otf" => some .OpenType
  | "woff" => some .Woff
  | "xhtml" => some .Xhtml
  | "md" => some .Markdown
  | "txt" => some .Markdown
  | "markdown" => some .Markdown
  | "tex" => some .Latex
  | "latex" => some .Latex
  | "eps" => some .Eps
  | "gif" => some .Gif
  | "pdf" => some .Pdf
  | _ => none

/-- The characters of a path's final component (after the last `/`). -/
def lastComponent (path : String) : List Char :=
  (path.toList.reverse.takeWhile (· ≠ '/')).reverse

/-- Rust's `Path::extension`: the portion of the file name after its final
`.`; none if the name has no `.` past its first character (so a leading
dot as in `.gitignore` yields no extension). -/
def pathExtension (path : String) : Option String :=
  match lastComponent path with
  | [] => none
  | _ :: tail =>
    if tail.contains '.' then
      some (String.mk ((tail.reverse.takeWhile (· ≠ '.')).reverse))
    else none

/-- `guess_mime` (mimetypes.rs lines 87-100). -/
def guessMime (path : String) : Option MimeType :=
  match pathExtension path with
  | some ext => mimeFromExtension ext
  | none => none

/-- `MimeType::is_epub_supported_image` (mimetypes.rs lines 188-193). -/
def MimeType.isEpubSupportedImage : MimeType → Bool
  | .Png => true
  | .Jpeg => true
  | .Svg => true
  | .Gif => true
  | _ => false

/-- `MimeType::is_latex_supported_image` (mimetypes.rs lines 194-199). -/
def MimeType.isLatexSupportedImage : MimeType → Bool
  | .Png => true
  | .Jpeg => true
  | .Eps => true
  | .Pdf => true
  | _ => false

/-- `is_epub_supported_image` on a path (the rerouted trait method,
mimetypes.rs lines 215-244: `None` guesses are `false`). -/
def isEpubSupportedImagePath (path : String) : Bool :=
  match guessMime path with
  | some m => m.isEpubSupportedImage
  | none => false

/-- `is_latex_supported_image` on a path. -/
def isLatexSupportedImagePath (path : String) : Bool :=
  match guessMime path with
  | some m => m.isLatexSupportedImage
  | none => false

/-- `is_pdf` on a path. -/
def isPdfPath (path : String) : Bool :=
  match guessMime path with
  | some m => m == .Pdf
  | none => false

/-- `is_svg` on a path. -/
def isSvgPath (path : String) : Bool :=
  match guessMime path with
  | some m => m == .Svg
  | none => false

/-! ## EPUB preprocessing and the LaTeX image arm (claim C5) -/

/-- `RenderingError` (bookbinder_epub/src/lib.rs lines 384-403); payloads
carried as strings, the bundling payload dropped. -/
inductive RenderingError
  | MissingImage (path : String)
  | UnsupportedImage (path : String)
  | ImageConversionError (path : String)
  | TitlepageGeneration
  | MissingCss (path : String)
  | FileWriteError (path : String)
  | Unspecified (s : String)
  | ResourceError (s : String)
  | BundlingError
deriving DecidableEq, Repr

/-- The external collaborators of the EPUB `preprocess` pass: the
filesystem (`std::fs::read`/`write`), the pdf-to-svg converter, the
temp-path namer and the uuid generator (modelled as a function of how many
uuids were already drawn). -/
structure EpubEnv where
  readFile : String → Option (List Nat)
  convertPdfToSvg : List Nat → Option String
  svgTempPath : String → String
  writeSvg : String → String → Bool
  freshMarker : Nat → String

/-- The mutable state of the `preprocess` loop (bookbinder_epub/src/lib.rs
lines 431-436); `changed` is the `changed_image_dests` map as an
association list with distinct keys (newest first). -/
structure PreState where
  events : List BookEvent
  footnotes : List BookEvent
  currentFootnote : List BookEvent
  inFootnote : Bool
  hasParts : Bool
  changed : List (String × String)
  uuidCounter : Nat

/-- `HashMap::remove`, returning the value found. -/
def lookupChanged (k : String) (l : List (String × String)) :
    Option String :=
  (l.find? (fun p => p.1 == k)).map (·.2)

/-- The map after `HashMap::remove`. -/
def removeChanged (k : String) (l : List (String × String)) :
    List (String × String) :=
  l.filter (fun p => p.1 != k)

/-- The loop of `preprocess` (bookbinder_epub/src/lib.rs lines 438-494),
one Rust match arm per case in source order; the image-start and image-end
arms match before the `in_footnote` catch-all. -/
def preprocessGo (env : EpubEnv) :
    PreState → List BookEvent → Except RenderingError PreState
  | st, [] => .ok st
  | st, .BeginSemantic .Part :: rest =>
    preprocessGo env { st with
      hasParts := true
      events := st.events ++ [.BeginSemantic .Part] } rest
  | st, .EndSemantic r :: rest =>
    preprocessGo env { st with
      events := st.events ++ st.footnotes ++ [.EndSemantic r]
      footnotes := [] } rest
  | st, .Event (.Start .FlattenedFootnote) :: rest =>
    preprocessGo env { st with inFootnote := true } rest
  | st, .Event (.End .FlattenedFootnote) :: rest =>
    let marker := env.freshMarker st.uuidCounter
    preprocessGo env { st with
      footnotes := st.footnotes
        ++ [.Event (.Start (.FootnoteDefinition marker))]
        ++ st.currentFootnote
        ++ [.Event (.End (.FootnoteDefinition marker))]
      currentFootnote := []
      inFootnote := false
      events := st.events ++ [.Event (.FootnoteReference marker)]
      uuidCounter := st.uuidCounter + 1 } rest
  | st, .Event (.End (.Image dest alt)) :: rest =>
    (match lookupChanged dest st.changed with
     | some newDest =>
       preprocessGo env { st with
         events := st.events ++ [.Event (.End (.Image newDest alt))]
         changed := removeChanged dest st.changed } rest
     | none =>
       preprocessGo env { st with
         events := st.events ++ [.Event (.End (.Image dest alt))] } rest)
  | st, .Event (.Start (.Image dest alt)) :: rest =>
    if isEpubSupportedImagePath dest then
      preprocessGo env { st with
        events := st.events ++ [.Event (.Start (.Image dest alt))] } rest
    else if isPdfPath dest then
      match env.readFile dest with
      | none => .error (.MissingImage dest)
      | some pdfData =>
        match env.convertPdfToSvg pdfData with
        | none => .error (.ImageConversionError dest)
        | some svg =>
          let svgPath := env.svgTempPath svg
          if env.writeSvg svgPath svg then
            preprocessGo env { st with
              changed := (dest, svgPath) :: st.changed
              events := st.events
                ++ [.Event (.Start (.Image svgPath alt))] } rest
          else .error (.ImageConversionError dest)
    else .error (.UnsupportedImage dest)
  | st, other :: rest =>
    if st.inFootnote then
      preprocessGo env
        { st with currentFootnote := st.currentFootnote ++ [other] } rest
    else
      preprocessGo env { st with events := st.events ++ [other] } rest

/-- The empty initial state of the `preprocess` loop. -/
def initialPreState : PreState :=
  { events := []
    footnotes := []
    currentFootnote := []
    inFootnote := false
    hasParts := false
    changed := []
    uuidCounter := 0 }

/-- `preprocess` (bookbinder_epub/src/lib.rs lines 430-496). -/
def preprocess (env : EpubEnv) (src : List BookEvent) :
    Except RenderingError (Bool × List BookEvent) :=
  (preprocessGo env initialPreState src).map
    fun st => (st.hasParts, st.events)

/-- `CollatedImage` (helpers.rs lines 309-316). -/
structure CollatedImage where
  caption : Option (List Event)
  dest : String
  alt : Option String

/-- The external collaborators of the LaTeX image path: the svg-to-png
converter, the temp-path namer and the filesystem write. -/
structure LatexEnv where
  convertSvgToPng : String → Option (List Nat)
  pngTempPath : List Nat → String
  writePng : String → List Nat → Bool

/-- `CollatedImage::get_latex_image_path` (helpers.rs lines 322-339). -/
def getLatexImagePath (env : LatexEnv) (img : CollatedImage) :
    Except Unit String :=
  if isLatexSupportedImagePath img.dest then .ok img.dest
  else if isSvgPath img.dest then
    match env.convertSvgToPng img.dest with
    | some png =>
      let pngPath := env.pngTempPath png
      if env.writePng pngPath png then .ok pngPath else .error ()
    | none => .error ()
  else .error ()

/-- The image arm of `LatexWriter::write`
(bookbinder_latex/src/lib.rs lines 659-676): the text this arm appends to
the output for one (already collated) image. `write` returns `()`: on an
`Err` from `get_latex_image_path` the arm appends nothing and signals
nothing. `writePlain` stands for `write_plain` on one caption event, and
the output is assumed to end in a newline so `begin_environment` adds
none. -/
def latexWriteImage (env : LatexEnv) (writePlain : Event → String)
    (img : CollatedImage) : String :=
  match getLatexImagePath env img with
  | .error _ => ""
  | .ok p =>
    "\\begin\x7bfigure\x7d\n\\centering\n\\includegraphics[width=\\textwidth]\x7b"
      ++ p ++ "\x7d\n"
      ++ (match img.caption with
          | some caption =>
            "\\caption\x7b" ++ String.join (caption.map writePlain) ++ "\x7d\n"
          | none => "")
      ++ "\\end\x7bfigure\x7d\n"

/-! ## Concrete inputs used by the witnesses and counterexamples -/

/-- An environment whose external collaborators are all trivial. -/
def exEnv : Env :=
  { parseInline := fun _ => []
    parsePlain := fun _ => []
    copyrightText := fun _ => ""
    resolveImage := fun _ => none }

/-- Builder calls for the balance witness: a mainmatter fragment with one
chapter, and an epigraph. -/
def exC1Calls : List BuilderCall :=
  [.addMainmatter [.Start (.Heading 1), .Text "Hello", .End (.Heading 1),
     .Start .Paragraph, .Text "Text", .End .Paragraph],
   .addEpigraph [.Start .Paragraph, .Text "An epigraph", .End .Paragraph] none]

/-- Mainmatter with two parts of two level-2 headings each (the spec's
continuous-numbering example). -/
def exC2Parts : List Event :=
  [.Start (.Heading 1), .Text "P1", .End (.Heading 1),
   .Start (.Heading 2), .Text "C1", .End (.Heading 2),
   .Start .Paragraph, .Text "a", .End .Paragraph,
   .Start (.Heading 2), .Text "C2", .End (.Heading 2),
   .Start (.Heading 1), .Text "P2", .End (.Heading 1),
   .Start (.Heading 2), .Text "C3", .End (.Heading 2),
   .Start (.Heading 2), .Text "C4", .End (.Heading 2)]

/-- Mainmatter in parts-with-chapters mode with 256 level-2 headings: the
`u8` chapter counter wraps on the 256th chapter. -/
def exC2Overflow : List Event :=
  .Start (.Heading 1) :: List.replicate 256 (.Start (.Heading 2))

/-- A mainmatter token sequence containing only level-2 headings. -/
def exC3 : List Event :=
  [.Start (.Heading 2), .Text "a", .End (.Heading 2)]

/-- A stream with one chapter and one part, for the header-formatter
witness. -/
def exC8Stream : List BookEvent :=
  [.BeginSemantic .Chapter, .BeginDivisionHeader false,
   .DivisionHeaderLabel (some "Chapter") (some 1) .Arabic,
   .Event (.Text "Hello"), .EndDivisionHeader false,
   .Event (.Text "body"), .EndSemantic .Chapter,
   .BeginSemantic .Part, .BeginDivisionHeader false,
   .DivisionHeaderLabel (some "Part") (some 2) .Roman,
   .Event (.Text "Ptitle"), .EndDivisionHeader false, .EndSemantic .Part]

/-- A collated chapter header whose title repeats its joined label
`"Chapter 1"`. -/
def exC9Header : CollatedHeader :=
  { label_text := some "Chapter"
    label_number := some 1
    label_number_format := some .Arabic
    text := some [.Text "Chapter 1: Wolves Attack!"]
    authors := none
    is_starred := false }

/-- An EPUB preprocessing environment whose collaborators are trivial. -/
def exEpubEnv : EpubEnv :=
  { readFile := fun _ => none
    convertPdfToSvg := fun _ => none
    svgTempPath := fun _ => ""
    writeSvg := fun _ _ => false
    freshMarker := fun n => "fn-" ++ toString n }

/-- A LaTeX environment whose collaborators are trivial. -/
def exLatexEnv : LatexEnv :=
  { convertSvgToPng := fun _ => none
    pngTempPath := fun _ => ""
    writePng := fun _ _ => false }

/-- A stream referencing a bitmap image, unsupported by both backends. -/
def exC5Stream : List BookEvent :=
  [.BeginMainmatter, .BeginSemantic .Chapter,
   .Event (.Start (.Image "diagram.bmp" "")),
   .Event (.End (.Image "diagram.bmp" "")),
   .EndSemantic .Chapter]

/-- The same bitmap image collated for the LaTeX writer. -/
def exC5Image : CollatedImage :=
  { caption := none, dest := "diagram.bmp", alt := none }

/-- A parts-with-chapters mainmatter for the Part-nesting witness. -/
def exC10 : List Event :=
  [.Start (.Heading 1), .Text "Part one", .End (.Heading 1),
   .Start (.Heading 2), .Text "First", .End (.Heading 2),
   .Start .Paragraph, .Text "body", .End .Paragraph]

theorem runValidator_append (a b : List BookEvent) :
    ∀ stack, runValidator (a ++ b) stack =
      (runValidator a stack).bind (fun s => runValidator b s) := by
  induction a with
  | nil => intro stack; simp [runValidator]
  | cons e rest ih =>
    intro stack
    simp only [List.cons_append, runValidator]
    cases hbt : beginTag e with
    | some t => simp [ih]
    | none =>
      cases het : endTag e with
      | some t =>
        cases stack with
        | nil => simp
        | cons t' s' => by_cases h : t = t' <;> simp [h, ih]
      | none => simp [ih]

theorem run_mapEvent (l : List Event) :
    ∀ stack, runValidator (l.map .Event) stack = some stack := by
  induction l with
  | nil => intro stack; simp [runValidator]
  | cons e rest ih => intro stack; simpa [runValidator, beginTag, endTag] using ih stack

theorem Neutral.comp {a b : List BookEvent} (ha : Neutral a) (hb : Neutral b) :
    Neutral (a ++ b) := by
  intro stack
  rw [runValidator_append, ha stack]
  exact hb stack

theorem Neutral.balanced {a : List BookEvent} (ha : Neutral a) : Balanced a :=
  ha []

theorem neutral_nil : Neutral ([] : List BookEvent) := fun _ => rfl

theorem neutral_mapEvent (l : List Event) : Neutral (l.map .Event) :=
  run_mapEvent l

/-! Neutrality of every division the content accumulator stores. -/

theorem neutral_halftitleEvents (tokens : List Event) :
    Neutral (halftitleEvents tokens) := by
  intro stack
  simp [halftitleEvents, wrapDivision, runValidator, beginTag, endTag,
    runValidator_append, run_mapEvent]

theorem neutral_copyrightPageEvents (src : List Event)
    (title : Option (List Event)) : Neutral (copyrightPageEvents src title) := by
  intro stack
  cases title with
  | none =>
    simp [copyrightPageEvents, wrapDivision, runValidator, beginTag, endTag,
      runValidator_append, run_mapEvent]
  | some t =>
    simp [copyrightPageEvents, runValidator, beginTag, endTag,
      runValidator_append, run_mapEvent]

theorem neutral_wrapDivision_events (role : SemanticRole) (tokens : List Event) :
    Neutral (wrapDivision role (tokens.map .Event)) := by
  intro stack
  simp [wrapDivision, runValidator, beginTag, endTag, runValidator_append,
    run_mapEvent]

theorem neutral_colophonEvents (tokens : List Event) :
    Neutral (colophonEvents tokens) := by
  intro stack
  simp [colophonEvents, runValidator, beginTag, endTag, runValidator_append,
    run_mapEvent]

theorem neutral_authoredAncillaryEvents (role : SemanticRole)
    (text : List Event) (title : Option (List Event)) (authors : List String) :
    Neutral (authoredAncillaryEvents role text title authors) := by
  intro stack
  rcases h : splitTitle text title with ⟨t, x⟩
  rcases hl : role.getLabel with - | l <;>
  by_cases ha : authors.isEmpty <;>
  simp [authoredAncillaryEvents, h, hl, ha, runValidator, beginTag, endTag,
    runValidator_append, run_mapEvent]

theorem neutral_unauthoredAncillaryEvents (role : SemanticRole)
    (text : List Event) (title : Option (List Event)) :
    Neutral (unauthoredAncillaryEvents role text title) := by
  intro stack
  rcases h : splitTitle text title with ⟨t, x⟩
  rcases hl : role.getLabel with - | l <;>
  simp [unauthoredAncillaryEvents, h, hl, runValidator, beginTag, endTag,
    runValidator_append, run_mapEvent]

theorem neutral_appendixEvents (text : List Event)
    (title : Option (List Event)) (count : Nat) :
    Neutral (appendixEvents text title count) := by
  intro stack
  rcases h : splitTitle text title with ⟨t, x⟩
  simp [appendixEvents, h, runValidator, beginTag, endTag,
    runValidator_append, run_mapEvent]

theorem neutral_epigraphEvents (text : List Event)
    (source : Option (List Event)) : Neutral (epigraphEvents text source) := by
  intro stack
  cases source <;>
  simp [epigraphEvents, runValidator, beginTag, endTag, runValidator_append,
    run_mapEvent]

theorem neutral_getTitlepage (env : Env) (m : Metadata) :
    Neutral (getTitlepage env m) := by
  intro stack
  cases h : m.subtitle <;>
  simp [getTitlepage, h, runValidator, beginTag, endTag, runValidator_append,
    run_mapEvent]

theorem headScan_append (a b : List Event) :
    ∀ st, headScan st (a ++ b) =
      (headScan st a).bind (fun st' => headScan st' b) := by
  induction a with
  | nil => intro st; simp [headScan]
  | cons e rest ih =>
    intro st
    simp only [List.cons_append, headScan]
    cases headEv e with
    | startH h => cases st <;> simp [ih]
    | endH h => by_cases hst : st = some h <;> simp [hst, ih]
    | plain => simp [ih]

theorem HeadingClean.merge {a b : List Event} (ha : HeadingClean a)
    (hb : HeadingClean b) : HeadingClean (a ++ b) := by
  unfold HeadingClean at *
  rw [headScan_append, ha]
  exact hb

/-! ## Balance of `divide_into_sections` -/

theorem run_divideGoChapter (l : List Event) :
    ∀ st inChapter cnt (stack : List RegionTag),
      headScan st l = some none →
      runValidator (divideGoChapter inChapter cnt l)
        (chapterStack st inChapter ++ stack) = some stack := by
  induction l with
  | nil =>
    intro st inChapter cnt stack hs
    simp only [headScan] at hs
    cases st with
    | some h => simp at hs
    | none =>
      cases inChapter <;>
      simp [divideGoChapter, chapterStack, runValidator, beginTag, endTag]
  | cons e rest ih =>
    intro st inChapter cnt stack hs
    simp only [headScan] at hs
    cases hev : headEv e with
    | startH h =>
      rw [hev] at hs
      cases st with
      | some h' => simp at hs
      | none =>
        simp only at hs
        by_cases h1 : h = 1
        · subst h1
          cases inChapter <;>
          · simp only [divideGoChapter, hev, if_pos rfl]
            simp only [chapterStack, runValidator, beginTag, endTag,
              List.nil_append, List.cons_append, List.append_assoc,
              runValidator_append, if_true]
            simpa [chapterStack, runValidator, beginTag, endTag] using
              ih (some 1) true ((cnt + 1) % u8Mod) stack hs
        · simp only [divideGoChapter, hev, if_neg h1]
          simp only [runValidator, beginTag, endTag]
          simpa [chapterStack, h1] using
            ih (some h) inChapter cnt stack hs
    | endH h =>
      rw [hev] at hs
      by_cases hst : st = some h
      · subst hst
        simp only [if_pos rfl] at hs
        by_cases h1 : h = 1
        · subst h1
          simp only [divideGoChapter, hev, if_pos rfl]
          simp only [chapterStack, if_pos rfl, List.cons_append,
            List.nil_append, runValidator, beginTag, endTag]
          simpa [chapterStack] using ih none inChapter cnt stack hs
        · simp only [divideGoChapter, hev, if_neg h1]
          simp only [runValidator, beginTag, endTag]
          have hne : ¬((some h : Option Nat) = some 1) := by
            simp [h1]
          simpa [chapterStack, hne] using ih none inChapter cnt stack hs
      · simp [hst] at hs
    | plain =>
      rw [hev] at hs
      simp only [divideGoChapter, hev, runValidator, beginTag, endTag]
      exact ih st inChapter cnt stack hs

theorem run_divideGoParts (l : List Event) :
    ∀ st inChapter cnt pcnt (stack : List RegionTag),
      (st = some 1 → inChapter = false) →
      (st = some 2 → inChapter = true) →
      headScan st l = some none →
      runValidator (divideGoParts inChapter cnt pcnt l)
        (partsStack st inChapter ++ stack) = some stack := by
  induction l with
  | nil =>
    intro st inChapter cnt pcnt stack h1 h2 hs
    simp only [headScan] at hs
    cases st with
    | some h => simp at hs
    | none =>
      cases inChapter <;>
      simp [divideGoParts, partsStack, runValidator, beginTag, endTag]
  | cons e rest ih =>
    intro st inChapter cnt pcnt stack hv1 hv2 hs
    simp only [headScan] at hs
    cases hev : headEv e with
    | startH h =>
      rw [hev] at hs
      cases st with
      | some h' => simp at hs
      | none =>
        simp only at hs
        by_cases h1 : h = 1
        · subst h1
          cases inChapter <;>
          · simp only [divideGoParts, hev, if_pos rfl]
            simp only [partsStack, runValidator, beginTag, endTag,
              List.nil_append, List.cons_append, List.append_assoc,
              runValidator_append, if_true]
            simpa [partsStack, runValidator, beginTag, endTag] using
              ih (some 1) false cnt ((pcnt + 1) % u8Mod) stack
                (fun _ => rfl) (by simp) hs
        · by_cases h2 : h = 2
          · subst h2
            cases inChapter <;>
            · simp only [divideGoParts, hev, if_neg h1, if_pos rfl]
              simp only [partsStack, runValidator, beginTag, endTag,
                List.nil_append, List.cons_append, List.append_assoc,
                runValidator_append, if_true]
              simpa [partsStack, runValidator, beginTag, endTag] using
                ih (some 2) true ((cnt + 1) % u8Mod) pcnt stack
                  (by simp) (fun _ => rfl) hs
          · simp only [divideGoParts, hev, if_neg h1, if_neg h2]
            simp only [runValidator, beginTag, endTag]
            have hps : partsStack (some h) inChapter =
                partsStack none inChapter := by
              match h, h1, h2 with
              | 0, _, _ => rfl
              | n + 3, _, _ => rfl
            rw [← hps]
            exact ih (some h) inChapter cnt pcnt stack
              (by simp [h1]) (by simp [h2]) hs
    | endH h =>
      rw [hev] at hs
      by_cases hst : st = some h
      · subst hst
        simp only [if_pos rfl] at hs
        by_cases h1 : h = 1
        · subst h1
          have hch : inChapter = false := hv1 rfl
          subst hch
          simp only [divideGoParts, hev, if_pos rfl]
          simp only [partsStack, List.cons_append, List.nil_append,
            runValidator, beginTag, endTag]
          simpa [partsStack] using ih none false cnt pcnt stack
            (by simp) (by simp) hs
        · by_cases h2 : h = 2
          · subst h2
            have hch : inChapter = true := hv2 rfl
            subst hch
            simp only [divideGoParts, hev, if_neg h1, if_pos rfl]
            simp only [partsStack, List.cons_append, List.nil_append,
              runValidator, beginTag, endTag]
            simpa [partsStack] using ih none true cnt pcnt stack
              (by simp) (by simp) hs
          · simp only [divideGoParts, hev, if_neg h1, if_neg h2]
            simp only [runValidator, beginTag, endTag]
            have hps : partsStack (some h) inChapter =
                partsStack none inChapter := by
              match h, h1, h2 with
              | 0, _, _ => rfl
              | n + 3, _, _ => rfl
            rw [hps]
            exact ih none inChapter cnt pcnt stack (by simp) (by simp) hs
      · simp [hst] at hs
    | plain =>
      rw [hev] at hs
      simp only [divideGoParts, hev, runValidator, beginTag, endTag]
      exact ih st inChapter cnt pcnt stack hv1 hv2 hs

/-- Heading-clean mainmatter divides into a neutral section stream. -/
theorem neutral_divideIntoSections {l : List Event} (h : HeadingClean l) :
    Neutral (divideIntoSections l) := by
  intro stack
  unfold divideIntoSections
  cases StepLevel.get l with
  | TopToChapter =>
    simpa [chapterStack] using run_divideGoChapter l none false 0 stack h
  | TopToParts =>
    simpa [partsStack] using
      run_divideGoParts l none false 0 0 stack (by simp) (by simp) h

/-! ## Balance of the assembled stream (claim C1) -/

theorem beginTag_resolveEvent (env : Env) (e : BookEvent) :
    beginTag (resolveEvent env e) = beginTag e := by
  cases e <;> rfl

theorem endTag_resolveEvent (env : Env) (e : BookEvent) :
    endTag (resolveEvent env e) = endTag e := by
  cases e <;> rfl

theorem run_resolveImages (env : Env) (l : List BookEvent) :
    ∀ stack, runValidator (resolveImages env l) stack = runValidator l stack := by
  induction l with
  | nil => intro stack; rfl
  | cons e rest ih =>
    intro stack
    simp only [resolveImages, List.map_cons, runValidator,
      beginTag_resolveEvent, endTag_resolveEvent]
    cases beginTag e with
    | some t => exact ih _
    | none =>
      cases endTag e with
      | some t =>
        cases stack with
        | nil => rfl
        | cons t' s' =>
          by_cases h : t = t'
          · simp only [h, ite_true]; exact ih _
          · simp only [h, ite_false]
      | none => exact ih _

theorem goodBuilder_new (title : String) : GoodBuilder (Builder.new title) :=
  ⟨neutral_nil, neutral_nil, neutral_nil, neutral_nil, neutral_nil,
   neutral_nil, neutral_nil, neutral_nil, neutral_nil, neutral_nil,
   neutral_nil, rfl⟩

theorem goodBuilder_applyCall {b : Builder} (hb : GoodBuilder b)
    (c : BuilderCall) (hc : CallClean c) : GoodBuilder (applyCall b c) := by
  cases c with
  | setHalftitle tokens =>
    exact { hb with halftitle := neutral_halftitleEvents tokens }
  | addCopyrightPage src title =>
    exact { hb with copyrightPage := neutral_copyrightPageEvents src title }
  | setDedication tokens =>
    exact { hb with dedication := neutral_wrapDivision_events _ tokens }
  | setColophon tokens =>
    exact { hb with colophon := neutral_colophonEvents tokens }
  | addForeword text title authors =>
    exact { hb with forewords := hb.forewords.comp (neutral_authoredAncillaryEvents _ text title authors) }
  | addAfterword text title authors =>
    exact { hb with afterwords := hb.afterwords.comp (neutral_authoredAncillaryEvents _ text title authors) }
  | addIntroduction text title authors =>
    exact { hb with introductions := hb.introductions.comp (neutral_authoredAncillaryEvents _ text title authors) }
  | addPreface text title =>
    exact { hb with prefaces := hb.prefaces.comp (neutral_unauthoredAncillaryEvents _ text title) }
  | addAcknowledgements text title =>
    exact { hb with acknowledgements := hb.acknowledgements.comp (neutral_unauthoredAncillaryEvents _ text title) }
  | addAppendix text title =>
    exact { hb with appendices := hb.appendices.comp (neutral_appendixEvents text title _) }
  | addMainmatter tokens =>
    exact { hb with mainClean := hb.mainClean.merge hc }
  | addEpigraph text source =>
    exact { hb with epigraphs := hb.epigraphs.comp (neutral_epigraphEvents text source) }
  | addExplicitEpigraph text source =>
    exact { hb with epigraphs := hb.epigraphs.comp (neutral_epigraphEvents text source) }
  | doNotGenerateHalftitle => exact { hb with }
  | doNotGenerateTitlepage => exact { hb with }
  | doNotGenerateCopyrightpage => exact { hb with }
  | author names => exact { hb with }
  | editor names => exact { hb with }
  | translator names => exact { hb with }
  | subtitle s => exact { hb with }
  | shorttitle s => exact { hb with }

theorem goodBuilder_applyCalls {b : Builder} (hb : GoodBuilder b) :
    ∀ calls : List BuilderCall, (∀ c ∈ calls, CallClean c) →
      GoodBuilder (applyCalls b calls) := by
  intro calls
  induction calls generalizing b with
  | nil => intro _; exact hb
  | cons c rest ih =>
    intro hclean
    exact ih (goodBuilder_applyCall hb c (hclean c (by simp)))
      (fun c' hc' => hclean c' (by simp [hc']))

theorem neutral_singleton_passthrough (e : BookEvent)
    (hb : beginTag e = none) (he : endTag e = none) : Neutral [e] := by
  intro stack
  simp [runValidator, hb, he]

theorem neutral_ite (p : Prop) [Decidable p] (l : List BookEvent)
    (hl : Neutral l) : Neutral (if p then l else []) := by
  split
  · exact hl
  · exact neutral_nil

/-- The assembled contents of a balanced builder state are balanced. -/
theorem neutral_frontSegment {b : Builder} (env : Env) (hb : GoodBuilder b) :
    Neutral (frontSegment env b) := by
  have hhalf : Neutral (generatedHalftitle env b) := by
    unfold generatedHalftitle
    split
    · exact neutral_halftitleEvents _
    · exact hb.halftitle
  have hcp : Neutral (generatedCopyrightPage env b) := by
    unfold generatedCopyrightPage
    split
    · exact neutral_copyrightPageEvents _ _
    · exact hb.copyrightPage
  have htp : Neutral ((if b.noTitlepage then none
      else some (getTitlepage env b.metadata)).getD []) := by
    cases hnt : b.noTitlepage
    · simpa [hnt] using neutral_getTitlepage env b.metadata
    · simpa [hnt] using neutral_nil
  have hepiintro : Neutral (if b.metadata.hasNoIntroductionAuthors then
      b.epigraphs ++ b.introductions else b.introductions ++ b.epigraphs) := by
    split
    · exact hb.epigraphs.comp hb.introductions
    · exact hb.introductions.comp hb.epigraphs
  have h1 : Neutral (if ¬b.noHalftitle then generatedHalftitle env b else []) := by
    split
    · exact hhalf
    · exact neutral_nil
  have h2 : Neutral (if ¬b.noCopyrightpage then generatedCopyrightPage env b
      else []) := by
    split
    · exact hcp
    · exact neutral_nil
  show Neutral (frontSegment env b)
  unfold frontSegment
  simp only [List.append_assoc]
  exact h1.comp (htp.comp (h2.comp (hb.dedication.comp
    (hb.forewords.comp (hepiintro.comp hb.prefaces)))))

theorem neutral_mainSegment {b : Builder} (hb : GoodBuilder b) :
    Neutral (mainSegment b) := by
  have hmm : Neutral (divideIntoSections b.mainmatter) :=
    neutral_divideIntoSections hb.mainClean
  have hback : Neutral (if b.hasBackmatter then [BookEvent.BeginBackmatter]
      else []) := by
    split
    · exact neutral_singleton_passthrough _ rfl rfl
    · exact neutral_nil
  show Neutral (mainSegment b)
  unfold mainSegment
  simp only [List.append_assoc]
  exact hmm.comp (hback.comp (hb.appendices.comp
    (hb.afterwords.comp (hb.acknowledgements.comp hb.colophon))))

theorem balanced_process {b : Builder} (env : Env) (hb : GoodBuilder b) :
    Balanced (process env b).contents := by
  have hall : Neutral ((process env b).contents) := by
    intro stack
    show runValidator (resolveImages env _) stack = some stack
    rw [run_resolveImages]
    simp only [List.append_assoc]
    exact ((neutral_singleton_passthrough .BeginFrontmatter rfl rfl).comp
      ((neutral_frontSegment env hb).comp
        ((neutral_singleton_passthrough .BeginMainmatter rfl rfl).comp
          (neutral_mainSegment hb)))) stack
  exact hall.balanced

/-! ## Chapter numbering (claim C2) -/

theorem modCounterSeq_congr (k : Nat) :
    ∀ a b, a % u8Mod = b % u8Mod → modCounterSeq a k = modCounterSeq b k := by
  induction k with
  | zero => intro a b _; rfl
  | succ k ih =>
    intro a b h
    have hhead : (a + 1) % u8Mod = (b + 1) % u8Mod := by
      unfold u8Mod at *; omega
    simp only [modCounterSeq, hhead]

theorem modCounterSeq_eq_range (k : Nat) :
    ∀ cnt, modCounterSeq cnt k = (List.range' (cnt + 1) k).map (· % u8Mod) := by
  induction k with
  | zero => intro cnt; rfl
  | succ k ih =>
    intro cnt
    have : modCounterSeq ((cnt + 1) % u8Mod) k = modCounterSeq (cnt + 1) k :=
      modCounterSeq_congr k _ _ (by unfold u8Mod; omega)
    simp only [modCounterSeq, List.range'_succ, List.map_cons, this, ih]

theorem chapterLabelNumbers_cons (e : BookEvent) (out : List BookEvent) :
    chapterLabelNumbers (e :: out) =
      match chapterNumOf e with
      | none => chapterLabelNumbers out
      | some n => n :: chapterLabelNumbers out := by
  cases h : chapterNumOf e <;>
    simp [chapterLabelNumbers, List.filterMap_cons, h]

theorem chapterLabelNumbers_append (a b : List BookEvent) :
    chapterLabelNumbers (a ++ b) =
      chapterLabelNumbers a ++ chapterLabelNumbers b := by
  simp [chapterLabelNumbers]

theorem countHeadingStarts_cons (lvl : Nat) (e : Event) (l : List Event) :
    countHeadingStarts lvl (e :: l) =
      countHeadingStarts lvl l +
        (if headEv e = .startH lvl then 1 else 0) := by
  simp [countHeadingStarts, List.countP_cons]

theorem chapterNums_divideGoParts (l : List Event) :
    ∀ inCh cnt pcnt,
      chapterLabelNumbers (divideGoParts inCh cnt pcnt l) =
        modCounterSeq cnt (countHeadingStarts 2 l) := by
  induction l with
  | nil =>
    intro inCh cnt pcnt
    cases inCh <;>
      simp [divideGoParts, chapterLabelNumbers, chapterNumOf,
        countHeadingStarts, modCounterSeq]
  | cons e rest ih =>
    intro inCh cnt pcnt
    cases hev : headEv e with
    | startH h =>
      by_cases h1 : h = 1
      · subst h1
        cases inCh <;>
          simp [divideGoParts, hev, chapterLabelNumbers_cons,
            chapterLabelNumbers_append, chapterNumOf, SemanticRole.getLabel,
            countHeadingStarts_cons, ih]
      · by_cases h2 : h = 2
        · subst h2
          cases inCh <;>
            simp [divideGoParts, hev, h1, chapterLabelNumbers_cons,
              chapterLabelNumbers_append, chapterNumOf, SemanticRole.getLabel,
              countHeadingStarts_cons, ih, modCounterSeq]
        · simp [divideGoParts, hev, h1, h2, chapterLabelNumbers_cons,
            chapterNumOf, countHeadingStarts_cons, ih]
    | endH h =>
      by_cases h1 : h = 1
      · subst h1
        simp [divideGoParts, hev, chapterLabelNumbers_cons, chapterNumOf,
          countHeadingStarts_cons, ih]
      · by_cases h2 : h = 2
        · subst h2
          simp [divideGoParts, hev, h1, chapterLabelNumbers_cons, chapterNumOf,
            countHeadingStarts_cons, ih]
        · simp [divideGoParts, hev, h1, h2, chapterLabelNumbers_cons,
            chapterNumOf, countHeadingStarts_cons, ih]
    | plain =>
      simp [divideGoParts, hev, chapterLabelNumbers_cons, chapterNumOf,
        countHeadingStarts_cons, ih]

/-! ## Heading rewriting and division creation (claim C3) -/

theorem bookHeadingMarkers_cons (e : BookEvent) (out : List BookEvent) :
    bookHeadingMarkers (e :: out) =
      match (match e with | .Event e' => headingMarkerOf e' | _ => none) with
      | none => bookHeadingMarkers out
      | some m => m :: bookHeadingMarkers out := by
  cases h : (match e with | .Event e' => headingMarkerOf e' | _ => none) <;>
    simp [bookHeadingMarkers, List.filterMap_cons, h]

theorem bookHeadingMarkers_append (a b : List BookEvent) :
    bookHeadingMarkers (a ++ b) =
      bookHeadingMarkers a ++ bookHeadingMarkers b := by
  simp [bookHeadingMarkers]

theorem headingMarkers_cons (e : Event) (l : List Event) :
    headingMarkers (e :: l) =
      match headingMarkerOf e with
      | none => headingMarkers l
      | some m => m :: headingMarkers l := by
  cases h : headingMarkerOf e <;>
    simp [headingMarkers, List.filterMap_cons, h]

theorem headEv_start_heading (h : Nat) :
    headEv (.Start (.Heading h)) = .startH h := rfl

theorem headEv_end_heading (h : Nat) :
    headEv (.End (.Heading h)) = .endH h := rfl

theorem headings_divideGoParts (l : List Event) :
    ∀ inCh cnt pcnt,
      bookHeadingMarkers (divideGoParts inCh cnt pcnt l) =
        (headingMarkers l).filterMap shiftPartsMode := by
  induction l with
  | nil =>
    intro inCh cnt pcnt
    cases inCh <;>
      simp [divideGoParts, bookHeadingMarkers, headingMarkers]
  | cons e rest ih =>
    intro inCh cnt pcnt
    cases hev : headEv e with
    | startH h =>
      by_cases h1 : h = 1
      · subst h1
        cases inCh <;>
          simp [divideGoParts, hev, bookHeadingMarkers_cons,
            bookHeadingMarkers_append, headingMarkers_cons, headingMarkerOf,
            hev, shiftPartsMode, ih]
      · by_cases h2 : h = 2
        · subst h2
          cases inCh <;>
            simp [divideGoParts, hev, h1, bookHeadingMarkers_cons,
              bookHeadingMarkers_append, headingMarkers_cons, headingMarkerOf,
              hev, shiftPartsMode, ih]
        · simp [divideGoParts, hev, h1, h2, bookHeadingMarkers_cons,
            headingMarkers_cons, headingMarkerOf, hev, headEv_start_heading,
            headEv_end_heading, shiftPartsMode, ih]
    | endH h =>
      by_cases h1 : h = 1
      · subst h1
        simp [divideGoParts, hev, bookHeadingMarkers_cons, headingMarkers_cons,
          headingMarkerOf, hev, shiftPartsMode, ih]
      · by_cases h2 : h = 2
        · subst h2
          simp [divideGoParts, hev, h1, bookHeadingMarkers_cons,
            headingMarkers_cons, headingMarkerOf, hev, shiftPartsMode, ih]
        · simp [divideGoParts, hev, h1, h2, bookHeadingMarkers_cons,
            headingMarkers_cons, headingMarkerOf, hev, headEv_start_heading,
            headEv_end_heading, shiftPartsMode, ih]
    | plain =>
      simp [divideGoParts, hev, bookHeadingMarkers_cons, headingMarkers_cons,
        headingMarkerOf, hev, ih]

theorem headings_divideGoChapter (l : List Event) :
    ∀ inCh cnt,
      bookHeadingMarkers (divideGoChapter inCh cnt l) =
        (headingMarkers l).filterMap shiftChapterMode := by
  induction l with
  | nil =>
    intro inCh cnt
    cases inCh <;>
      simp [divideGoChapter, bookHeadingMarkers, headingMarkers]
  | cons e rest ih =>
    intro inCh cnt
    cases hev : headEv e with
    | startH h =>
      by_cases h1 : h = 1
      · subst h1
        cases inCh <;>
          simp [divideGoChapter, hev, bookHeadingMarkers_cons,
            bookHeadingMarkers_append, headingMarkers_cons, headingMarkerOf,
            hev, shiftChapterMode, ih]
      · simp [divideGoChapter, hev, h1, bookHeadingMarkers_cons,
          headingMarkers_cons, headingMarkerOf, hev, headEv_start_heading,
          headEv_end_heading, shiftChapterMode, ih]
    | endH h =>
      by_cases h1 : h = 1
      · subst h1
        simp [divideGoChapter, hev, bookHeadingMarkers_cons,
          headingMarkers_cons, headingMarkerOf, hev, shiftChapterMode, ih]
      · simp [divideGoChapter, hev, h1, bookHeadingMarkers_cons,
          headingMarkers_cons, headingMarkerOf, hev, headEv_start_heading,
          headEv_end_heading, shiftChapterMode, ih]
    | plain =>
      simp [divideGoChapter, hev, bookHeadingMarkers_cons, headingMarkers_cons,
        headingMarkerOf, hev, ih]

theorem countBegin_divideGoParts (l : List Event) (r : SemanticRole) :
    ∀ inCh cnt pcnt,
      (divideGoParts inCh cnt pcnt l).count (.BeginSemantic r) =
        (if r = .Part then countHeadingStarts 1 l else 0) +
        (if r = .Chapter then countHeadingStarts 2 l else 0) := by
  induction l with
  | nil =>
    intro inCh cnt pcnt
    cases inCh <;>
      simp [divideGoParts, countHeadingStarts, List.count_cons]
  | cons e rest ih =>
    intro inCh cnt pcnt
    cases hev : headEv e with
    | startH h =>
      by_cases h1 : h = 1
      · subst h1
        rcases hr1 : decide (r = SemanticRole.Part) with - | - <;>
        cases inCh <;>
          simp_all [divideGoParts, hev, List.count_cons, List.count_append,
            countHeadingStarts_cons, ih]
      · by_cases h2 : h = 2
        · subst h2
          rcases hr2 : decide (r = SemanticRole.Chapter) with - | - <;>
          cases inCh <;>
            simp_all [divideGoParts, hev, h1, List.count_cons,
              List.count_append, countHeadingStarts_cons, ih]
        · simp [divideGoParts, hev, h1, h2, List.count_cons,
            countHeadingStarts_cons, ih]
    | endH h =>
      by_cases h1 : h = 1
      · subst h1
        simp [divideGoParts, hev, List.count_cons, countHeadingStarts_cons, ih]
      · by_cases h2 : h = 2
        · subst h2
          simp [divideGoParts, hev, h1, List.count_cons,
            countHeadingStarts_cons, ih]
        · simp [divideGoParts, hev, h1, h2, List.count_cons,
            countHeadingStarts_cons, ih]
    | plain =>
      simp [divideGoParts, hev, List.count_cons, countHeadingStarts_cons, ih]

theorem countBegin_divideGoChapter (l : List Event) (r : SemanticRole) :
    ∀ inCh cnt,
      (divideGoChapter inCh cnt l).count (.BeginSemantic r) =
        (if r = .Chapter then countHeadingStarts 1 l else 0) := by
  induction l with
  | nil =>
    intro inCh cnt
    cases inCh <;>
      simp [divideGoChapter, countHeadingStarts, List.count_cons]
  | cons e rest ih =>
    intro inCh cnt
    cases hev : headEv e with
    | startH h =>
      by_cases h1 : h = 1
      · subst h1
        rcases hr : decide (r = SemanticRole.Chapter) with - | - <;>
        cases inCh <;>
          simp_all [divideGoChapter, hev, List.count_cons, List.count_append,
            countHeadingStarts_cons, ih]
      · simp [divideGoChapter, hev, h1, List.count_cons,
          countHeadingStarts_cons, ih]
    | endH h =>
      by_cases h1 : h = 1
      · subst h1
        simp [divideGoChapter, hev, List.count_cons, countHeadingStarts_cons,
          ih]
      · simp [divideGoChapter, hev, h1, List.count_cons,
          countHeadingStarts_cons, ih]
    | plain =>
      simp [divideGoChapter, hev, List.count_cons, countHeadingStarts_cons, ih]

/-! ## Part regions are flat (claim C10) -/

theorem semTrace_cons (e : BookEvent) (out : List BookEvent) :
    semTrace (e :: out) =
      match semMarkerOf e with
      | none => semTrace out
      | some m => m :: semTrace out := by
  cases h : semMarkerOf e <;> simp [semTrace, List.filterMap_cons, h]

theorem semTrace_append (a b : List BookEvent) :
    semTrace (a ++ b) = semTrace a ++ semTrace b := by
  simp [semTrace]

theorem partsClosed_divideGoParts (l : List Event) :
    ∀ st inCh cnt pcnt, headScan st l = some none →
      partsClosedFrom (decide (st = some 1))
        (semTrace (divideGoParts inCh cnt pcnt l)) = true := by
  induction l with
  | nil =>
    intro st inCh cnt pcnt hs
    simp only [headScan] at hs
    cases st with
    | some h => simp at hs
    | none =>
      cases inCh <;>
        simp [divideGoParts, semTrace, semMarkerOf, partsClosedFrom]
  | cons e rest ih =>
    intro st inCh cnt pcnt hs
    simp only [headScan] at hs
    cases hev : headEv e with
    | startH h =>
      rw [hev] at hs
      cases st with
      | some h' => simp at hs
      | none =>
        simp only at hs
        by_cases h1 : h = 1
        · subst h1
          cases inCh <;>
            simpa [divideGoParts, hev, semTrace_cons, semTrace_append,
              semMarkerOf, partsClosedFrom] using
              ih (some 1) _ cnt ((pcnt + 1) % u8Mod) hs
        · by_cases h2 : h = 2
          · subst h2
            cases inCh <;>
              simpa [divideGoParts, hev, h1, semTrace_cons, semTrace_append,
                semMarkerOf, partsClosedFrom] using
                ih (some 2) _ ((cnt + 1) % u8Mod) pcnt hs
          · simpa [divideGoParts, hev, h1, h2, semTrace_cons, semMarkerOf,
              partsClosedFrom, h1] using ih (some h) inCh cnt pcnt hs
    | endH h =>
      rw [hev] at hs
      by_cases hst : st = some h
      · subst hst
        simp only [if_pos rfl] at hs
        by_cases h1 : h = 1
        · subst h1
          simpa [divideGoParts, hev, semTrace_cons, semMarkerOf,
            partsClosedFrom] using ih none inCh cnt pcnt hs
        · by_cases h2 : h = 2
          · subst h2
            simpa [divideGoParts, hev, h1, semTrace_cons, semMarkerOf,
              partsClosedFrom, h1] using ih none inCh cnt pcnt hs
          · simpa [divideGoParts, hev, h1, h2, semTrace_cons, semMarkerOf,
              partsClosedFrom, h1] using ih none inCh cnt pcnt hs
      · simp [hst] at hs
    | plain =>
      rw [hev] at hs
      simpa [divideGoParts, hev, semTrace_cons, semMarkerOf] using
        ih st inCh cnt pcnt hs

theorem endPartOk_divideGoParts (l : List Event) :
    ∀ st inCh cnt pcnt prev, headScan st l = some none →
      endPartOkFrom prev (divideGoParts inCh cnt pcnt l) = true := by
  induction l with
  | nil =>
    intro st inCh cnt pcnt prev hs
    simp only [headScan] at hs
    cases st with
    | some h => simp at hs
    | none => cases inCh <;> simp [divideGoParts, endPartOkFrom]
  | cons e rest ih =>
    intro st inCh cnt pcnt prev hs
    simp only [headScan] at hs
    cases hev : headEv e with
    | startH h =>
      rw [hev] at hs
      cases st with
      | some h' => simp at hs
      | none =>
        simp only at hs
        by_cases h1 : h = 1
        · subst h1
          cases inCh <;>
            simpa [divideGoParts, hev, endPartOkFrom] using
              ih (some 1) _ cnt ((pcnt + 1) % u8Mod) false hs
        · by_cases h2 : h = 2
          · subst h2
            cases inCh <;>
              simpa [divideGoParts, hev, h1, endPartOkFrom] using
                ih (some 2) _ ((cnt + 1) % u8Mod) pcnt false hs
          · simpa [divideGoParts, hev, h1, h2, endPartOkFrom] using
              ih (some h) inCh cnt pcnt false hs
    | endH h =>
      rw [hev] at hs
      by_cases hst : st = some h
      · subst hst
        simp only [if_pos rfl] at hs
        by_cases h1 : h = 1
        · subst h1
          simpa [divideGoParts, hev, endPartOkFrom] using
            ih none inCh cnt pcnt false hs
        · by_cases h2 : h = 2
          · subst h2
            simpa [divideGoParts, hev, h1, endPartOkFrom] using
              ih none inCh cnt pcnt true hs
          · simpa [divideGoParts, hev, h1, h2, endPartOkFrom] using
              ih none inCh cnt pcnt false hs
      · simp [hst] at hs
    | plain =>
      rw [hev] at hs
      simpa [divideGoParts, hev, endPartOkFrom] using
        ih st inCh cnt pcnt false hs

/-! ## The claims -/

/-- **C1**: For every `BookSrc` produced by `BookSrcBuilder::process` from
any sequence of builder calls whose markdown fragments parse to well-nested
token sequences (in particular, heading markers properly paired and
non-nested, as the Token Source guarantees), the contents event stream is
balanced: a stack-based validator that pushes on every paired `Begin*`
event and pops on the matching `End*` never underflows, never pops a
mismatched region (no crossing), and ends with an empty stack.  The three
matter markers are standalone boundaries without `End` variants in the data
model and pass through the validator. -/
theorem claim_C1_balance (env : Env) (title : String)
    (calls : List BuilderCall) (hclean : ∀ c ∈ calls, CallClean c) :
    Balanced (process env (applyCalls (Builder.new title) calls)).contents :=
  balanced_process env
    (goodBuilder_applyCalls (goodBuilder_new title) calls hclean)

/-- Witness for C1 at a concrete builder-call sequence. -/
theorem claim_C1_balance_witness :
    (∀ c ∈ exC1Calls, CallClean c) ∧
    Balanced
      (process exEnv (applyCalls (Builder.new "A Book") exC1Calls)).contents :=
  ⟨by decide, claim_C1_balance exEnv "A Book" exC1Calls (by decide)⟩

set_option maxRecDepth 100000 in
/-- **C2 (counterexample)**: the chapter counter of `divide_into_sections`
is a `u8`; on a parts-with-chapters mainmatter with 256 level-2 headings
the numbers attached to Chapter headers are not `1, 2, ..., 256` in stream
order — the counter wraps and the 256th chapter is numbered 0 (release
semantics; a debug build panics on the overflowing increment). -/
theorem claim_C2_counterexample :
    StepLevel.get exC2Overflow = .TopToParts ∧
    (chapterLabelNumbers (divideIntoSections exC2Overflow)).length = 256 ∧
    (chapterLabelNumbers (divideIntoSections exC2Overflow)).getLast? =
      some 0 ∧
    chapterLabelNumbers (divideIntoSections exC2Overflow) ≠
      List.range' 1 256 := by
  decide

/-- **C2 (amended)**: In `divide_into_sections`, chapter numbering uses a
single monotonically increasing `u8` counter that is never reset when a new
part begins: for every mainmatter classified as parts-with-chapters, the
`DivisionHeaderLabel` numbers attached to Chapter headers are
`1, 2, 3, ...` in stream order across the whole book, each taken modulo 256
— hence exactly `1..n` whenever the book has at most 255 chapters, and
never restarting at a part boundary. -/
theorem claim_C2_continuous_numbering (l : List Event)
    (hmode : StepLevel.get l = .TopToParts) :
    chapterLabelNumbers (divideIntoSections l) =
      (List.range' 1 (countHeadingStarts 2 l)).map (· % u8Mod) := by
  unfold divideIntoSections
  rw [hmode, chapterNums_divideGoParts]
  simpa using modCounterSeq_eq_range (countHeadingStarts 2 l) 0

/-- Witness for C2 on the spec's two-parts-of-two-chapters example:
the emitted numbers are 1, 2, 3, 4 — never 1, 2, 1, 2. -/
theorem claim_C2_witness :
    StepLevel.get exC2Parts = .TopToParts ∧
    chapterLabelNumbers (divideIntoSections exC2Parts) =
      (List.range' 1 (countHeadingStarts 2 exC2Parts)).map (· % u8Mod) ∧
    (List.range' 1 (countHeadingStarts 2 exC2Parts)).map (· % u8Mod) =
      [1, 2, 3, 4] :=
  ⟨by decide, claim_C2_continuous_numbering exC2Parts (by decide), by decide⟩

/-- **C3 (counterexample)**: a mainmatter with only level-2 headings (no
level-1, no deeper levels) is classified `TopToChapter`, not
parts-with-chapters as the claim states: no Part or Chapter division is
created for it, and its headings are shifted down by one (level 2 → 3),
not turned into Chapter divisions. -/
theorem claim_C3_counterexample :
    StepLevel.get exC3 = .TopToChapter ∧
    (divideIntoSections exC3).count (.BeginSemantic .Chapter) = 0 ∧
    (divideIntoSections exC3).count (.BeginSemantic .Part) = 0 ∧
    bookHeadingMarkers (divideIntoSections exC3) = [(true, 3), (false, 3)] := by
  decide

/-- **C3 (amended)**: the Division Classifier maps a mainmatter to
parts-with-chapters mode iff either both level-1 and level-2 headings
occur, or level-2 headings occur with no level-1 *and some deeper level
also occurs*; in that mode level-1 headings become Part divisions, level-2
headings become Chapter divisions, and all other heading levels shift down
by two.  Otherwise level-1 headings become Chapter divisions directly and
all other heading levels shift down by one. -/
theorem claim_C3_division_classifier (l : List Event) :
    (StepLevel.get l = .TopToParts ↔
      (hasHeadingLevel 1 l = true ∧ hasHeadingLevel 2 l = true) ∨
      (hasHeadingLevel 1 l = false ∧ hasHeadingLevel 2 l = true ∧
        hasOtherHeadingLevel l = true)) ∧
    (match StepLevel.get l with
      | .TopToParts =>
        bookHeadingMarkers (divideIntoSections l) =
          (headingMarkers l).filterMap shiftPartsMode ∧
        (divideIntoSections l).count (.BeginSemantic .Part) =
          countHeadingStarts 1 l ∧
        (divideIntoSections l).count (.BeginSemantic .Chapter) =
          countHeadingStarts 2 l
      | .TopToChapter =>
        bookHeadingMarkers (divideIntoSections l) =
          (headingMarkers l).filterMap shiftChapterMode ∧
        (divideIntoSections l).count (.BeginSemantic .Chapter) =
          countHeadingStarts 1 l ∧
        (divideIntoSections l).count (.BeginSemantic .Part) = 0) := by
  constructor
  · rcases hl1 : hasHeadingLevel 1 l <;>
      rcases hl2 : hasHeadingLevel 2 l <;>
      rcases hln : hasOtherHeadingLevel l <;>
      simp [StepLevel.get, hl1, hl2, hln]
  · cases hm : StepLevel.get l with
    | TopToParts =>
      refine ⟨?_, ?_, ?_⟩
      · simpa [divideIntoSections, hm] using headings_divideGoParts l false 0 0
      · simpa [divideIntoSections, hm] using
          countBegin_divideGoParts l .Part false 0 0
      · simpa [divideIntoSections, hm] using
          countBegin_divideGoParts l .Chapter false 0 0
    | TopToChapter =>
      refine ⟨?_, ?_, ?_⟩
      · simpa [divideIntoSections, hm] using headings_divideGoChapter l false 0
      · simpa [divideIntoSections, hm] using
          countBegin_divideGoChapter l .Chapter false 0
      · simpa [divideIntoSections, hm] using
          countBegin_divideGoChapter l .Part false 0

/-- **C10**: When the Division Classifier is in parts-with-chapters mode,
each Part region encloses only its own division header: in the trace of
semantic markers every `BeginSemantic Part` is immediately followed by
`EndSemantic Part` (so the Chapter regions after a part heading are
siblings of the Part region, never nested inside it), and in the full
stream every `EndSemantic Part` is emitted immediately after the part
heading's `EndDivisionHeader`. -/
theorem claim_C10_part_regions (l : List Event) (hclean : HeadingClean l)
    (hmode : StepLevel.get l = .TopToParts) :
    partsClosedFrom false (semTrace (divideIntoSections l)) = true ∧
    endPartOkFrom false (divideIntoSections l) = true := by
  constructor
  · simpa [divideIntoSections, hmode] using
      partsClosed_divideGoParts l none false 0 0 hclean
  · simpa [divideIntoSections, hmode] using
      endPartOk_divideGoParts l none false 0 0 false hclean

/-- Witness for C10 at a concrete parts-with-chapters mainmatter. -/
theorem claim_C10_witness :
    HeadingClean exC10 ∧ StepLevel.get exC10 = .TopToParts ∧
    (partsClosedFrom false (semTrace (divideIntoSections exC10)) = true ∧
     endPartOkFrom false (divideIntoSections exC10) = true) :=
  ⟨by decide, by decide, claim_C10_part_regions exC10 (by decide) (by decide)⟩

/-! ## Elementwise facts about accumulator chunks (claims C4 and C6)

Each division the accumulator stores is built from a fixed marker skeleton
around token holes; the following lemmas let any elementwise property be
checked on the skeleton alone. -/

theorem all_mapEvent (P : BookEvent → Bool) (l : List Event)
    (hE : ∀ e, P (.Event e) = true) : (l.map .Event).all P = true := by
  induction l with
  | nil => rfl
  | cons e rest ih => simp [List.all_cons, hE, ih]

theorem all_halftitleEvents (P : BookEvent → Bool) (t : List Event)
    (h1 : P (.BeginSemantic .Halftitle) = true)
    (h2 : P (.EndSemantic .Halftitle) = true)
    (h3 : ∀ s, P (.BeginDivisionHeader s) = true)
    (h4 : ∀ s, P (.EndDivisionHeader s) = true)
    (hE : ∀ e, P (.Event e) = true) :
    (halftitleEvents t).all P = true := by
  simp [halftitleEvents, wrapDivision, List.all_cons, List.all_append,
    h1, h2, h3, h4, all_mapEvent P _ hE]

theorem all_copyrightPageEvents (P : BookEvent → Bool) (src : List Event)
    (title : Option (List Event))
    (h1 : P (.BeginSemantic .Copyrightpage) = true)
    (h2 : P (.EndSemantic .Copyrightpage) = true)
    (hE : ∀ e, P (.Event e) = true) :
    (copyrightPageEvents src title).all P = true := by
  cases title <;>
    simp [copyrightPageEvents, wrapDivision, List.all_cons, List.all_append,
      h1, h2, hE, all_mapEvent P _ hE]

theorem all_wrapDivision_events (P : BookEvent → Bool) (role : SemanticRole)
    (t : List Event)
    (h1 : P (.BeginSemantic role) = true) (h2 : P (.EndSemantic role) = true)
    (hE : ∀ e, P (.Event e) = true) :
    (wrapDivision role (t.map .Event)).all P = true := by
  simp [wrapDivision, List.all_cons, List.all_append, h1, h2,
    all_mapEvent P _ hE]

theorem all_colophonEvents (P : BookEvent → Bool) (t : List Event)
    (h1 : P (.BeginSemantic .Colophon) = true)
    (h2 : P (.EndSemantic .Colophon) = true)
    (h3 : ∀ s, P (.BeginDivisionHeader s) = true)
    (h4 : ∀ s, P (.EndDivisionHeader s) = true)
    (hE : ∀ e, P (.Event e) = true) :
    (colophonEvents t).all P = true := by
  simp [colophonEvents, List.all_cons, List.all_append, h1, h2, h3, h4, hE,
    all_mapEvent P _ hE]

theorem all_authoredAncillaryEvents (P : BookEvent → Bool)
    (role : SemanticRole) (text : List Event) (title : Option (List Event))
    (authors : List String)
    (h1 : P (.BeginSemantic role) = true) (h2 : P (.EndSemantic role) = true)
    (h3 : ∀ s, P (.BeginDivisionHeader s) = true)
    (h4 : ∀ s, P (.EndDivisionHeader s) = true)
    (h5 : ∀ t' n f, P (.DivisionHeaderLabel t' n f) = true)
    (h6 : ∀ ns, P (.DivisionAuthors ns) = true)
    (hE : ∀ e, P (.Event e) = true) :
    (authoredAncillaryEvents role text title authors).all P = true := by
  rcases hsp : splitTitle text title with ⟨t', x'⟩
  rcases hl : role.getLabel with - | lab <;>
    by_cases ha : authors.isEmpty <;>
    simp [authoredAncillaryEvents, hsp, hl, ha, List.all_cons,
      List.all_append, h1, h2, h3, h4, h5, h6, all_mapEvent P _ hE]

theorem all_unauthoredAncillaryEvents (P : BookEvent → Bool)
    (role : SemanticRole) (text : List Event) (title : Option (List Event))
    (h1 : P (.BeginSemantic role) = true) (h2 : P (.EndSemantic role) = true)
    (h3 : ∀ s, P (.BeginDivisionHeader s) = true)
    (h4 : ∀ s, P (.EndDivisionHeader s) = true)
    (h5 : ∀ t' n f, P (.DivisionHeaderLabel t' n f) = true)
    (hE : ∀ e, P (.Event e) = true) :
    (unauthoredAncillaryEvents role text title).all P = true := by
  rcases hsp : splitTitle text title with ⟨t', x'⟩
  rcases hl : role.getLabel with - | lab <;>
    simp [unauthoredAncillaryEvents, hsp, hl, List.all_cons, List.all_append,
      h1, h2, h3, h4, h5, all_mapEvent P _ hE]

theorem all_appendixEvents (P : BookEvent → Bool) (text : List Event)
    (title : Option (List Event)) (count : Nat)
    (h1 : P (.BeginSemantic .Appendix) = true)
    (h2 : P (.EndSemantic .Appendix) = true)
    (h3 : ∀ s, P (.BeginDivisionHeader s) = true)
    (h4 : ∀ s, P (.EndDivisionHeader s) = true)
    (h5 : ∀ t' n f, P (.DivisionHeaderLabel t' n f) = true)
    (hE : ∀ e, P (.Event e) = true) :
    (appendixEvents text title count).all P = true := by
  rcases hsp : splitTitle text title with ⟨t', x'⟩
  simp [appendixEvents, hsp, List.all_cons, List.all_append, h1, h2, h3, h4,
    h5, all_mapEvent P _ hE]

theorem all_epigraphEvents (P : BookEvent → Bool) (text : List Event)
    (source : Option (List Event))
    (h1 : P (.BeginSemantic .Epigraph) = true)
    (h2 : P (.EndSemantic .Epigraph) = true)
    (h3 : P .BeginEpigraphText = true) (h4 : P .EndEpigraphText = true)
    (h5 : P .BeginEpigraphSource = true) (h6 : P .EndEpigraphSource = true)
    (hE : ∀ e, P (.Event e) = true) :
    (epigraphEvents text source).all P = true := by
  cases source <;>
    simp [epigraphEvents, List.all_cons, List.all_append, h1, h2, h3, h4, h5,
      h6, all_mapEvent P _ hE]

theorem all_getTitlepage (P : BookEvent → Bool) (env : Env) (m : Metadata)
    (h1 : P .BeginTitlePage = true) (h2 : P .EndTitlePage = true)
    (h3 : P .BeginTitlePageTitle = true) (h4 : P .EndTitlePageTitle = true)
    (h5 : P .BeginTitlePageSubTitle = true)
    (h6 : P .EndTitlePageSubTitle = true)
    (h7 : ∀ cs, P (.TitlePageContributors cs) = true)
    (hE : ∀ e, P (.Event e) = true) :
    (getTitlepage env m).all P = true := by
  cases hsub : m.subtitle <;>
    simp [getTitlepage, hsub, List.all_cons, List.all_append, h1, h2, h3, h4,
      h5, h6, h7, all_mapEvent P _ hE]

theorem all_divideGoChapter (P : BookEvent → Bool)
    (h1 : P (.BeginSemantic .Chapter) = true)
    (h2 : P (.EndSemantic .Chapter) = true)
    (h3 : ∀ s, P (.BeginDivisionHeader s) = true)
    (h4 : ∀ s, P (.EndDivisionHeader s) = true)
    (h5 : ∀ t' n f, P (.DivisionHeaderLabel t' n f) = true)
    (hE : ∀ e, P (.Event e) = true) (l : List Event) :
    ∀ inCh cnt, (divideGoChapter inCh cnt l).all P = true := by
  induction l with
  | nil =>
    intro inCh cnt
    cases inCh <;> simp [divideGoChapter, h2]
  | cons e rest ih =>
    intro inCh cnt
    cases hev : headEv e with
    | startH h =>
      by_cases hh : h = 1
      · subst hh
        cases inCh <;>
          simp [divideGoChapter, hev, List.all_cons, List.all_append,
            h1, h2, h3, h5, ih]
      · simp [divideGoChapter, hev, hh, List.all_cons, hE, ih]
    | endH h =>
      by_cases hh : h = 1
      · subst hh
        simp [divideGoChapter, hev, List.all_cons, h4, ih]
      · simp [divideGoChapter, hev, hh, List.all_cons, hE, ih]
    | plain => simp [divideGoChapter, hev, List.all_cons, hE, ih]

theorem all_divideGoParts (P : BookEvent → Bool)
    (h1 : P (.BeginSemantic .Chapter) = true)
    (h2 : P (.EndSemantic .Chapter) = true)
    (h1p : P (.BeginSemantic .Part) = true)
    (h2p : P (.EndSemantic .Part) = true)
    (h3 : ∀ s, P (.BeginDivisionHeader s) = true)
    (h4 : ∀ s, P (.EndDivisionHeader s) = true)
    (h5 : ∀ t' n f, P (.DivisionHeaderLabel t' n f) = true)
    (hE : ∀ e, P (.Event e) = true) (l : List Event) :
    ∀ inCh cnt pcnt, (divideGoParts inCh cnt pcnt l).all P = true := by
  induction l with
  | nil =>
    intro inCh cnt pcnt
    cases inCh <;> simp [divideGoParts, h2]
  | cons e rest ih =>
    intro inCh cnt pcnt
    cases hev : headEv e with
    | startH h =>
      by_cases hh : h = 1
      · subst hh
        cases inCh <;>
          simp [divideGoParts, hev, List.all_cons, List.all_append,
            h1p, h2, h3, h5, ih]
      · by_cases hh2 : h = 2
        · subst hh2
          cases inCh <;>
            simp [divideGoParts, hev, hh, List.all_cons, List.all_append,
              h1, h2, h3, h5, ih]
        · simp [divideGoParts, hev, hh, hh2, List.all_cons, hE, ih]
    | endH h =>
      by_cases hh : h = 1
      · subst hh
        simp [divideGoParts, hev, List.all_cons, h2p, h4, ih]
      · by_cases hh2 : h = 2
        · subst hh2
          simp [divideGoParts, hev, hh, List.all_cons, h4, ih]
        · simp [divideGoParts, hev, hh, hh2, List.all_cons, hE, ih]
    | plain => simp [divideGoParts, hev, List.all_cons, hE, ih]

theorem all_divideIntoSections (P : BookEvent → Bool)
    (h1 : P (.BeginSemantic .Chapter) = true)
    (h2 : P (.EndSemantic .Chapter) = true)
    (h1p : P (.BeginSemantic .Part) = true)
    (h2p : P (.EndSemantic .Part) = true)
    (h3 : ∀ s, P (.BeginDivisionHeader s) = true)
    (h4 : ∀ s, P (.EndDivisionHeader s) = true)
    (h5 : ∀ t' n f, P (.DivisionHeaderLabel t' n f) = true)
    (hE : ∀ e, P (.Event e) = true) (l : List Event) :
    (divideIntoSections l).all P = true := by
  unfold divideIntoSections
  cases StepLevel.get l with
  | TopToChapter =>
    exact all_divideGoChapter P h1 h2 h3 h4 h5 hE l false 0
  | TopToParts =>
    exact all_divideGoParts P h1 h2 h1p h2p h3 h4 h5 hE l false 0 0

theorem all_resolveImages (P : BookEvent → Bool) (env : Env)
    (hstable : ∀ e, P (resolveEvent env e) = P e) (l : List BookEvent)
    (h : l.all P = true) : (resolveImages env l).all P = true := by
  induction l with
  | nil => rfl
  | cons e rest ih =>
    simp only [List.all_cons, Bool.and_eq_true] at h
    have hrest := ih h.2
    simp only [resolveImages, List.map_cons, List.all_cons,
      Bool.and_eq_true] at hrest ⊢
    exact ⟨by rw [hstable]; exact h.1, hrest⟩

theorem all_append_of (P : BookEvent → Bool) {a b : List BookEvent}
    (ha : a.all P = true) (hb : b.all P = true) : (a ++ b).all P = true := by
  simp [List.all_append, ha, hb]

/-! ## Matter markers never occur inside buffers (claim C4) -/

theorem count_eq_zero_of_all_ne (l : List BookEvent) (m : BookEvent)
    (h : l.all (fun e => decide (e ≠ m)) = true) : l.count m = 0 := by
  rw [List.count_eq_zero]
  intro hm
  have := List.all_eq_true.mp h _ hm
  simp at this

theorem count_matter_of_matterFree (l : List BookEvent) (m : BookEvent)
    (hm : isMatterMarker m = true) (h : matterFree l = true) :
    l.count m = 0 := by
  rw [List.count_eq_zero]
  intro hmem
  have := List.all_eq_true.mp h _ hmem
  rw [notMatter, hm] at this
  simp at this

theorem matterPred_resolveEvent (env : Env) (e : BookEvent) :
    notMatter (resolveEvent env e) = notMatter e := by
  cases e <;> rfl

theorem matterFree_resolveImages (env : Env) (l : List BookEvent)
    (h : matterFree l = true) : matterFree (resolveImages env l) = true :=
  all_resolveImages notMatter env (matterPred_resolveEvent env) l h

theorem matterFree_append_of {a b : List BookEvent}
    (ha : matterFree a = true) (hb : matterFree b = true) :
    matterFree (a ++ b) = true :=
  all_append_of notMatter ha hb

theorem matterFreeInv_new (title : String) :
    MatterFreeInv (Builder.new title) :=
  ⟨rfl, rfl, rfl, rfl, rfl, rfl, rfl, rfl, rfl, rfl, rfl⟩

theorem matterFree_halftitleEvents (t : List Event) :
    matterFree (halftitleEvents t) = true :=
  all_halftitleEvents notMatter t rfl rfl (fun _ => rfl) (fun _ => rfl)
    (fun _ => rfl)

theorem matterFree_copyrightPageEvents (src : List Event)
    (title : Option (List Event)) :
    matterFree (copyrightPageEvents src title) = true :=
  all_copyrightPageEvents notMatter src title rfl rfl (fun _ => rfl)

theorem matterFree_wrapDivision_events (role : SemanticRole)
    (t : List Event) : matterFree (wrapDivision role (t.map .Event)) = true :=
  all_wrapDivision_events notMatter role t rfl rfl (fun _ => rfl)

theorem matterFree_colophonEvents (t : List Event) :
    matterFree (colophonEvents t) = true :=
  all_colophonEvents notMatter t rfl rfl (fun _ => rfl) (fun _ => rfl)
    (fun _ => rfl)

theorem matterFree_authoredAncillaryEvents (role : SemanticRole)
    (text : List Event) (title : Option (List Event)) (authors : List String) :
    matterFree (authoredAncillaryEvents role text title authors) = true :=
  all_authoredAncillaryEvents notMatter role text title authors rfl rfl
    (fun _ => rfl) (fun _ => rfl) (fun _ _ _ => rfl) (fun _ => rfl)
    (fun _ => rfl)

theorem matterFree_unauthoredAncillaryEvents (role : SemanticRole)
    (text : List Event) (title : Option (List Event)) :
    matterFree (unauthoredAncillaryEvents role text title) = true :=
  all_unauthoredAncillaryEvents notMatter role text title rfl rfl
    (fun _ => rfl) (fun _ => rfl) (fun _ _ _ => rfl) (fun _ => rfl)

theorem matterFree_appendixEvents (text : List Event)
    (title : Option (List Event)) (count : Nat) :
    matterFree (appendixEvents text title count) = true :=
  all_appendixEvents notMatter text title count rfl rfl (fun _ => rfl)
    (fun _ => rfl) (fun _ _ _ => rfl) (fun _ => rfl)

theorem matterFree_epigraphEvents (text : List Event)
    (source : Option (List Event)) :
    matterFree (epigraphEvents text source) = true :=
  all_epigraphEvents notMatter text source rfl rfl rfl rfl rfl rfl
    (fun _ => rfl)

theorem matterFree_getTitlepage (env : Env) (m : Metadata) :
    matterFree (getTitlepage env m) = true :=
  all_getTitlepage notMatter env m rfl rfl rfl rfl rfl rfl (fun _ => rfl)
    (fun _ => rfl)

theorem matterFree_divideIntoSections (l : List Event) :
    matterFree (divideIntoSections l) = true :=
  all_divideIntoSections notMatter rfl rfl rfl rfl (fun _ => rfl)
    (fun _ => rfl) (fun _ _ _ => rfl) (fun _ => rfl) l

theorem matterFreeInv_applyCall {b : Builder} (hb : MatterFreeInv b)
    (c : BuilderCall) : MatterFreeInv (applyCall b c) := by
  cases c with
  | setHalftitle t =>
    exact { hb with halftitle := matterFree_halftitleEvents t }
  | addCopyrightPage src title =>
    exact { hb with copyrightPage := matterFree_copyrightPageEvents src title }
  | setDedication t =>
    exact { hb with dedication := matterFree_wrapDivision_events _ t }
  | setColophon t =>
    exact { hb with colophon := matterFree_colophonEvents t }
  | addForeword text title authors =>
    exact { hb with forewords := matterFree_append_of hb.forewords (matterFree_authoredAncillaryEvents _ text title authors) }
  | addAfterword text title authors =>
    exact { hb with afterwords := matterFree_append_of hb.afterwords (matterFree_authoredAncillaryEvents _ text title authors) }
  | addIntroduction text title authors =>
    exact { hb with introductions := matterFree_append_of hb.introductions (matterFree_authoredAncillaryEvents _ text title authors) }
  | addPreface text title =>
    exact { hb with prefaces := matterFree_append_of hb.prefaces (matterFree_unauthoredAncillaryEvents _ text title) }
  | addAcknowledgements text title =>
    exact { hb with acknowledgements := matterFree_append_of hb.acknowledgements (matterFree_unauthoredAncillaryEvents _ text title) }
  | addAppendix text title =>
    exact { hb with appendices := matterFree_append_of hb.appendices (matterFree_appendixEvents text title _) }
  | addMainmatter t => exact { hb with }
  | addEpigraph text source =>
    exact { hb with epigraphs := matterFree_append_of hb.epigraphs (matterFree_epigraphEvents text source) }
  | addExplicitEpigraph text source =>
    exact { hb with epigraphs := matterFree_append_of hb.epigraphs (matterFree_epigraphEvents text source) }
  | doNotGenerateHalftitle => exact { hb with }
  | doNotGenerateTitlepage => exact { hb with }
  | doNotGenerateCopyrightpage => exact { hb with }
  | author names => exact { hb with }
  | editor names => exact { hb with }
  | translator names => exact { hb with }
  | subtitle s => exact { hb with }
  | shorttitle s => exact { hb with }

theorem matterFreeInv_applyCalls {b : Builder} (hb : MatterFreeInv b) :
    ∀ calls : List BuilderCall, MatterFreeInv (applyCalls b calls) := by
  intro calls
  induction calls generalizing b with
  | nil => exact hb
  | cons c rest ih => exact ih (matterFreeInv_applyCall hb c)

theorem matterFree_generatedHalftitle {b : Builder} (env : Env)
    (hb : MatterFreeInv b) : matterFree (generatedHalftitle env b) = true := by
  unfold generatedHalftitle
  split
  · exact matterFree_halftitleEvents _
  · exact hb.halftitle

theorem matterFree_generatedCopyrightPage {b : Builder} (env : Env)
    (hb : MatterFreeInv b) :
    matterFree (generatedCopyrightPage env b) = true := by
  unfold generatedCopyrightPage
  split
  · exact matterFree_copyrightPageEvents _ _
  · exact hb.copyrightPage

theorem matterFree_frontSegment {b : Builder} (env : Env)
    (hb : MatterFreeInv b) : matterFree (frontSegment env b) = true := by
  have h1 : matterFree (if ¬b.noHalftitle then generatedHalftitle env b
      else []) = true := by
    split
    · exact matterFree_generatedHalftitle env hb
    · rfl
  have h2 : matterFree (if ¬b.noCopyrightpage then
      generatedCopyrightPage env b else []) = true := by
    split
    · exact matterFree_generatedCopyrightPage env hb
    · rfl
  have htp : matterFree ((if b.noTitlepage then none
      else some (getTitlepage env b.metadata)).getD []) = true := by
    cases hnt : b.noTitlepage
    · simpa [hnt] using matterFree_getTitlepage env b.metadata
    · simp [hnt, matterFree]
  have hepi : matterFree (if b.metadata.hasNoIntroductionAuthors then
      b.epigraphs ++ b.introductions
     else b.introductions ++ b.epigraphs) = true := by
    split
    · exact matterFree_append_of hb.epigraphs hb.introductions
    · exact matterFree_append_of hb.introductions hb.epigraphs
  unfold frontSegment
  simp only [List.append_assoc]
  exact matterFree_append_of h1 (matterFree_append_of htp
    (matterFree_append_of h2 (matterFree_append_of hb.dedication
      (matterFree_append_of hb.forewords
        (matterFree_append_of hepi hb.prefaces)))))

/-- The backmatter flag of the accumulated builder is exactly "some
backmatter call occurred". -/
theorem hasBackmatter_applyCalls :
    ∀ (calls : List BuilderCall) (b : Builder),
      (applyCalls b calls).hasBackmatter =
        (b.hasBackmatter || calls.any isBackmatterCall) := by
  intro calls
  induction calls with
  | nil => intro b; simp [applyCalls]
  | cons c rest ih =>
    intro b
    rw [applyCalls, ih, List.any_cons]
    cases c with
    | addAfterword text title authors =>
      rcases hsp : splitTitle text title with ⟨t', x'⟩
      simp [applyCall, Builder.hasBackmatter, isBackmatterCall,
        authoredAncillaryEvents, hsp, Bool.or_assoc, Bool.or_comm,
        Bool.or_left_comm]
    | addAcknowledgements text title =>
      rcases hsp : splitTitle text title with ⟨t', x'⟩
      simp [applyCall, Builder.hasBackmatter, isBackmatterCall,
        unauthoredAncillaryEvents, hsp, Bool.or_assoc, Bool.or_comm,
        Bool.or_left_comm]
    | addAppendix text title =>
      rcases hsp : splitTitle text title with ⟨t', x'⟩
      simp [applyCall, Builder.hasBackmatter, isBackmatterCall,
        appendixEvents, hsp, Bool.or_assoc, Bool.or_comm, Bool.or_left_comm]
    | setColophon t =>
      simp [applyCall, Builder.hasBackmatter, isBackmatterCall,
        colophonEvents, Bool.or_assoc, Bool.or_comm, Bool.or_left_comm]
    | _ =>
      simp [applyCall, Builder.hasBackmatter, isBackmatterCall, Bool.or_assoc]

theorem count_resolveImages_nonEvent (env : Env) (l : List BookEvent)
    (m : BookEvent) (hm : ∀ e : Event, m ≠ .Event e) :
    (resolveImages env l).count m = l.count m := by
  induction l with
  | nil => rfl
  | cons e rest ih =>
    simp only [resolveImages] at ih ⊢
    simp only [List.map_cons, List.count_cons, ih]
    congr 1
    cases e with
    | Event e' =>
      simp [resolveEvent, Ne.symm (hm (resolveEventToken env e')),
        Ne.symm (hm e')]
    | _ => rfl

theorem count_matter_mainSegment (b : Builder) (hinv : MatterFreeInv b)
    (m : BookEvent) (hm : isMatterMarker m = true) :
    (mainSegment b).count m =
      (if b.hasBackmatter then [BookEvent.BeginBackmatter].count m else 0) := by
  unfold mainSegment
  simp only [List.count_append]
  rw [count_matter_of_matterFree _ _ hm (matterFree_divideIntoSections _),
    count_matter_of_matterFree _ _ hm hinv.appendices,
    count_matter_of_matterFree _ _ hm hinv.afterwords,
    count_matter_of_matterFree _ _ hm hinv.acknowledgements,
    count_matter_of_matterFree _ _ hm hinv.colophon]
  cases hbk : b.hasBackmatter <;> simp

/-- **C4**: For every `BookSrc` produced by `process`, the contents stream
contains exactly one `BeginFrontmatter` — the very first event — and
exactly one `BeginMainmatter` after the whole frontmatter segment;
`BeginBackmatter` occurs only after `BeginMainmatter`, and occurs (exactly
once) precisely when at least one appendix, afterword, acknowledgements, or
colophon was added. -/
theorem claim_C4_matter_ordering (env : Env) (title : String)
    (calls : List BuilderCall) :
    ∃ front main,
      (process env (applyCalls (Builder.new title) calls)).contents =
        .BeginFrontmatter :: (front ++ .BeginMainmatter :: main) ∧
      matterFree front = true ∧
      main.count .BeginFrontmatter = 0 ∧
      main.count .BeginMainmatter = 0 ∧
      main.count .BeginBackmatter =
        (if calls.any isBackmatterCall then 1 else 0) := by
  have hinv : MatterFreeInv (applyCalls (Builder.new title) calls) :=
    matterFreeInv_applyCalls (matterFreeInv_new title) calls
  refine ⟨resolveImages env (frontSegment env (applyCalls (Builder.new title) calls)),
    resolveImages env (mainSegment (applyCalls (Builder.new title) calls)),
    ?_, ?_, ?_, ?_, ?_⟩
  · show resolveImages env _ = _
    simp [resolveImages, resolveEvent]
  · exact matterFree_resolveImages env _ (matterFree_frontSegment env hinv)
  · rw [count_resolveImages_nonEvent env _ _ (by intro e; simp),
      count_matter_mainSegment _ hinv BookEvent.BeginFrontmatter rfl]
    cases hbk : (applyCalls (Builder.new title) calls).hasBackmatter <;> simp
  · rw [count_resolveImages_nonEvent env _ _ (by intro e; simp),
      count_matter_mainSegment _ hinv BookEvent.BeginMainmatter rfl]
    cases hbk : (applyCalls (Builder.new title) calls).hasBackmatter <;> simp
  · rw [count_resolveImages_nonEvent env _ _ (by intro e; simp),
      count_matter_mainSegment _ hinv BookEvent.BeginBackmatter rfl]
    rw [hasBackmatter_applyCalls calls (Builder.new title)]
    have hnew : (Builder.new title).hasBackmatter = false := rfl
    rw [hnew]
    cases ha : calls.any isBackmatterCall <;> simp

/-! ## Epigraph counting (claim C6) -/

theorem count_mapEvent_nonEvent (l : List Event) (m : BookEvent)
    (hm : ∀ e, m ≠ .Event e) : (l.map .Event).count m = 0 := by
  rw [List.count_eq_zero]
  intro hmem
  rcases List.mem_map.mp hmem with ⟨e, -, he⟩
  exact hm e he.symm

theorem countEpi_halftitleEvents (t : List Event) :
    (halftitleEvents t).count (.EndSemantic .Epigraph) = 0 :=
  count_eq_zero_of_all_ne _ _ (all_halftitleEvents _ t (by simp) (by simp)
    (fun _ => by simp) (fun _ => by simp) (fun _ => by simp))

theorem countEpi_copyrightPageEvents (src : List Event)
    (title : Option (List Event)) :
    (copyrightPageEvents src title).count (.EndSemantic .Epigraph) = 0 :=
  count_eq_zero_of_all_ne _ _ (all_copyrightPageEvents _ src title (by simp)
    (by simp) (fun _ => by simp))

theorem countEpi_wrapDivision_events (role : SemanticRole) (t : List Event)
    (hr : role ≠ .Epigraph) :
    (wrapDivision role (t.map .Event)).count (.EndSemantic .Epigraph) = 0 :=
  count_eq_zero_of_all_ne _ _ (all_wrapDivision_events _ role t (by simp)
    (by simp [hr]) (fun _ => by simp))

theorem countEpi_colophonEvents (t : List Event) :
    (colophonEvents t).count (.EndSemantic .Epigraph) = 0 :=
  count_eq_zero_of_all_ne _ _ (all_colophonEvents _ t (by simp) (by simp)
    (fun _ => by simp) (fun _ => by simp) (fun _ => by simp))

theorem countEpi_authoredAncillaryEvents (role : SemanticRole)
    (text : List Event) (title : Option (List Event)) (authors : List String)
    (hr : role ≠ .Epigraph) :
    (authoredAncillaryEvents role text title authors).count
      (.EndSemantic .Epigraph) = 0 :=
  count_eq_zero_of_all_ne _ _ (all_authoredAncillaryEvents _ role text title
    authors (by simp) (by simp [hr]) (fun _ => by simp) (fun _ => by simp)
    (fun _ _ _ => by simp) (fun _ => by simp) (fun _ => by simp))

theorem countEpi_unauthoredAncillaryEvents (role : SemanticRole)
    (text : List Event) (title : Option (List Event))
    (hr : role ≠ .Epigraph) :
    (unauthoredAncillaryEvents role text title).count
      (.EndSemantic .Epigraph) = 0 :=
  count_eq_zero_of_all_ne _ _ (all_unauthoredAncillaryEvents _ role text
    title (by simp) (by simp [hr]) (fun _ => by simp) (fun _ => by simp)
    (fun _ _ _ => by simp) (fun _ => by simp))

theorem countEpi_appendixEvents (text : List Event)
    (title : Option (List Event)) (count : Nat) :
    (appendixEvents text title count).count (.EndSemantic .Epigraph) = 0 :=
  count_eq_zero_of_all_ne _ _ (all_appendixEvents _ text title count
    (by simp) (by simp) (fun _ => by simp) (fun _ => by simp)
    (fun _ _ _ => by simp) (fun _ => by simp))

theorem countEpi_getTitlepage (env : Env) (m : Metadata) :
    (getTitlepage env m).count (.EndSemantic .Epigraph) = 0 :=
  count_eq_zero_of_all_ne _ _ (all_getTitlepage _ env m (by simp) (by simp)
    (by simp) (by simp) (by simp) (by simp) (fun _ => by simp)
    (fun _ => by simp))

theorem countEpi_divideIntoSections (l : List Event) :
    (divideIntoSections l).count (.EndSemantic .Epigraph) = 0 :=
  count_eq_zero_of_all_ne _ _ (all_divideIntoSections _ (by simp) (by simp)
    (by simp) (by simp) (fun _ => by simp) (fun _ => by simp)
    (fun _ _ _ => by simp) (fun _ => by simp) l)

theorem countEpi_epigraphEvents (text : List Event)
    (source : Option (List Event)) :
    (epigraphEvents text source).count (.EndSemantic .Epigraph) = 1 := by
  have hmap : ∀ l : List Event,
      (l.map BookEvent.Event).count (.EndSemantic .Epigraph) = 0 :=
    fun l => count_mapEvent_nonEvent l _ (by intro e; simp)
  cases source <;>
    simp [epigraphEvents, List.count_append, List.count_cons, hmap]

theorem epiCountInv_new (title : String) : EpiCountInv (Builder.new title) :=
  ⟨rfl, rfl, rfl, rfl, rfl, rfl, rfl, rfl, rfl, rfl, rfl⟩

theorem epiCountInv_applyCall {b : Builder} (hb : EpiCountInv b)
    (c : BuilderCall) : EpiCountInv (applyCall b c) := by
  cases c with
  | setHalftitle t =>
    exact { hb with halftitle := countEpi_halftitleEvents t }
  | addCopyrightPage src title =>
    exact { hb with copyrightPage := countEpi_copyrightPageEvents src title }
  | setDedication t =>
    exact { hb with dedication := countEpi_wrapDivision_events _ t (by simp) }
  | setColophon t =>
    exact { hb with colophon := countEpi_colophonEvents t }
  | addForeword text title authors =>
    refine { hb with forewords := ?_ }
    simp only [applyCall]
    rw [List.count_append, hb.forewords,
      countEpi_authoredAncillaryEvents _ text title authors (by simp)]
  | addAfterword text title authors =>
    refine { hb with afterwords := ?_ }
    simp only [applyCall]
    rw [List.count_append, hb.afterwords,
      countEpi_authoredAncillaryEvents _ text title authors (by simp)]
  | addIntroduction text title authors =>
    refine { hb with introductions := ?_ }
    simp only [applyCall]
    rw [List.count_append, hb.introductions,
      countEpi_authoredAncillaryEvents _ text title authors (by simp)]
  | addPreface text title =>
    refine { hb with prefaces := ?_ }
    simp only [applyCall]
    rw [List.count_append, hb.prefaces,
      countEpi_unauthoredAncillaryEvents _ text title (by simp)]
  | addAcknowledgements text title =>
    refine { hb with acknowledgements := ?_ }
    simp only [applyCall]
    rw [List.count_append, hb.acknowledgements,
      countEpi_unauthoredAncillaryEvents _ text title (by simp)]
  | addAppendix text title =>
    refine { hb with appendices := ?_ }
    simp only [applyCall]
    rw [List.count_append, hb.appendices, countEpi_appendixEvents]
  | addMainmatter t => exact { hb with }
  | addEpigraph text source =>
    refine { hb with epigraphs := ?_ }
    simp only [applyCall]
    rw [List.count_append, hb.epigraphs, countEpi_epigraphEvents]
  | addExplicitEpigraph text source =>
    refine { hb with epigraphs := ?_ }
    simp only [applyCall]
    rw [List.count_append, hb.epigraphs, countEpi_epigraphEvents]
  | doNotGenerateHalftitle => exact { hb with }
  | doNotGenerateTitlepage => exact { hb with }
  | doNotGenerateCopyrightpage => exact { hb with }
  | author names => exact { hb with }
  | editor names => exact { hb with }
  | translator names => exact { hb with }
  | subtitle s => exact { hb with }
  | shorttitle s => exact { hb with }

theorem epiCountInv_applyCalls {b : Builder} (hb : EpiCountInv b) :
    ∀ calls : List BuilderCall, EpiCountInv (applyCalls b calls) := by
  intro calls
  induction calls generalizing b with
  | nil => exact hb
  | cons c rest ih => exact ih (epiCountInv_applyCall hb c)

/-- The epigraph counter accumulates exactly the epigraph-adding calls. -/
theorem epigraphCount_applyCalls :
    ∀ (calls : List BuilderCall) (b : Builder),
      (applyCalls b calls).epigraphCount =
        b.epigraphCount + countEpigraphCalls calls := by
  intro calls
  induction calls with
  | nil => intro b; simp [applyCalls, countEpigraphCalls]
  | cons c rest ih =>
    intro b
    rw [applyCalls, ih]
    have hstep : (applyCall b c).epigraphCount =
        b.epigraphCount + (if isEpigraphCall c then 1 else 0) := by
      cases c <;> simp [applyCall, isEpigraphCall]
    rw [hstep]
    simp only [countEpigraphCalls, List.countP_cons]
    omega

theorem countEpi_frontSegment {b : Builder} (env : Env)
    (hinv : EpiCountInv b) :
    (frontSegment env b).count (.EndSemantic .Epigraph) = b.epigraphCount := by
  have h1 : (if ¬b.noHalftitle then generatedHalftitle env b
      else []).count (.EndSemantic .Epigraph) = 0 := by
    split
    · unfold generatedHalftitle
      split
      · exact countEpi_halftitleEvents _
      · exact hinv.halftitle
    · rfl
  have h2 : (if ¬b.noCopyrightpage then generatedCopyrightPage env b
      else []).count (.EndSemantic .Epigraph) = 0 := by
    split
    · unfold generatedCopyrightPage
      split
      · exact countEpi_copyrightPageEvents _ _
      · exact hinv.copyrightPage
    · rfl
  have htp : ((if b.noTitlepage then none
      else some (getTitlepage env b.metadata)).getD []).count
        (.EndSemantic .Epigraph) = 0 := by
    cases hnt : b.noTitlepage
    · simpa [hnt] using countEpi_getTitlepage env b.metadata
    · simp [hnt]
  have hepi : (if b.metadata.hasNoIntroductionAuthors then
      b.epigraphs ++ b.introductions
     else b.introductions ++ b.epigraphs).count (.EndSemantic .Epigraph) =
       b.epigraphCount := by
    split <;>
      rw [List.count_append] <;>
      rw [hinv.epigraphs, hinv.introductions] <;>
      omega
  unfold frontSegment
  simp only [List.count_append]
  rw [h1, h2, htp, hepi, hinv.dedication, hinv.forewords, hinv.prefaces]
  omega

theorem countEpi_mainSegment {b : Builder} (hinv : EpiCountInv b) :
    (mainSegment b).count (.EndSemantic .Epigraph) = 0 := by
  have hback : (if b.hasBackmatter then [BookEvent.BeginBackmatter]
      else []).count (.EndSemantic .Epigraph) = 0 := by
    split <;> rfl
  unfold mainSegment
  simp only [List.count_append]
  rw [countEpi_divideIntoSections, hback, hinv.appendices, hinv.afterwords,
    hinv.acknowledgements, hinv.colophon]

/-- **C6**: For every sequence of builder calls, `expected_epigraph_count`
of the `BookSrc` returned by `process` equals the number of `add_epigraph`
calls made (counting `add_explicit_epigraph`, which delegates to
`add_epigraph`), and the number of `EndSemantic Epigraph` events in the
assembled contents stream equals that same count. -/
theorem claim_C6_epigraph_roundtrip (env : Env) (title : String)
    (calls : List BuilderCall) :
    (process env (applyCalls (Builder.new title) calls)).expectedEpigraphCount
      = countEpigraphCalls calls ∧
    (process env (applyCalls (Builder.new title) calls)).contents.count
      (.EndSemantic .Epigraph) = countEpigraphCalls calls := by
  have hcnt : (applyCalls (Builder.new title) calls).epigraphCount =
      countEpigraphCalls calls := by
    rw [epigraphCount_applyCalls]
    simp [Builder.new]
  have hinv : EpiCountInv (applyCalls (Builder.new title) calls) :=
    epiCountInv_applyCalls (epiCountInv_new title) calls
  constructor
  · exact hcnt
  · show (resolveImages env _).count _ = _
    rw [count_resolveImages_nonEvent env _ _ (by intro e; simp)]
    simp only [List.count_append]
    rw [countEpi_frontSegment env hinv, countEpi_mainSegment hinv, hcnt]
    simp

/-! ## Header formatter lemmas (claims C7 and C8) -/

theorem applyChapterFormat_numberAlone_eq_labelAlone (n : NumberFormat)
    (cls : HeaderClass) (e : BookEvent) :
    applyChapterFormat .NumberAlone n cls e =
      applyChapterFormat .LabelAlone n cls e := by
  cases cls <;> cases e <;> rfl

theorem applyChapterFormat_not_chapter (fmt : HeaderFormat)
    (n : NumberFormat) (cls : HeaderClass) (e : BookEvent)
    (h1 : cls ≠ .chapterLabel) (h2 : cls ≠ .chapterText) :
    applyChapterFormat fmt n cls e = e := by
  cases cls <;> cases fmt <;> first
    | rfl
    | exact absurd rfl h1
    | exact absurd rfl h2

theorem applyPartFormat_not_part (fmt : HeaderFormat) (n : NumberFormat)
    (cls : HeaderClass) (e : BookEvent)
    (h1 : cls ≠ .partLabel) (h2 : cls ≠ .partText) :
    applyPartFormat fmt n cls e = e := by
  cases cls <;> cases fmt <;> first
    | rfl
    | exact absurd rfl h1
    | exact absurd rfl h2

theorem changeHeadersGo_chapter_numberAlone_eq_labelAlone
    (o : TextHeaderOptions) (l : List BookEvent) :
    ∀ st, changeHeadersGo { o with chapterHeaderFormat := .NumberAlone } st l =
      changeHeadersGo { o with chapterHeaderFormat := .LabelAlone } st l := by
  induction l with
  | nil => intro st; rfl
  | cons e rest ih =>
    intro st
    rcases hcs : chStep st e with ⟨st', cls⟩
    simp only [changeHeadersGo, hcs, applyHeaderFormats,
      applyChapterFormat_numberAlone_eq_labelAlone, ih]

theorem changeHeadersGo_length (o : TextHeaderOptions) (l : List BookEvent) :
    ∀ st, (changeHeadersGo o st l).length = l.length := by
  induction l with
  | nil => intro st; rfl
  | cons e rest ih =>
    intro st
    rcases hcs : chStep st e with ⟨st', cls⟩
    simp [changeHeadersGo, hcs, ih]

theorem classifyGo_length (l : List BookEvent) :
    ∀ st, (classifyGo st l).length = l.length := by
  induction l with
  | nil => intro st; rfl
  | cons e rest ih =>
    intro st
    rcases hcs : chStep st e with ⟨st', cls⟩
    simp [classifyGo, hcs, ih]

theorem changeHeadersGo_getElem (o : TextHeaderOptions) (l : List BookEvent) :
    ∀ (st : CHState) (i : Nat), (changeHeadersGo o st l)[i]? =
      Option.map₂ (applyHeaderFormats o) ((classifyGo st l)[i]?) (l[i]?) := by
  induction l with
  | nil => intro st i; simp [changeHeadersGo, classifyGo]
  | cons e rest ih =>
    intro st i
    rcases hcs : chStep st e with ⟨st', cls⟩
    cases i with
    | zero => simp [changeHeadersGo, classifyGo, hcs]
    | succ i => simpa [changeHeadersGo, classifyGo, hcs] using ih st' i

/-- **C7**: For every stream and every pair of `TextHeaderOptions` that
agree except that one has `chapter_header_format NumberAlone` and the other
`LabelAlone`, `change_headers` produces identical result streams (both
erase chapter title text to `Null`, keep the label text, and set the number
format).  For part headers the two formats differ: on a part division
header, `LabelAlone` sets the label's number to `None` (while erasing the
title text and setting the number format), whereas `NumberAlone` leaves the
number intact. -/
theorem claim_C7_numberAlone_labelAlone :
    (∀ (o : TextHeaderOptions) (contents : List BookEvent),
      changeHeaders { o with chapterHeaderFormat := .NumberAlone } contents =
        changeHeaders { o with chapterHeaderFormat := .LabelAlone } contents) ∧
    (∀ (o : TextHeaderOptions) (t : Option String) (num : Option Nat)
        (nf : NumberFormat) (s : String),
      changeHeaders { o with partHeaderFormat := .LabelAlone }
        [.BeginSemantic .Part, .BeginDivisionHeader false,
         .DivisionHeaderLabel t num nf, .Event (.Text s),
         .EndDivisionHeader false, .EndSemantic .Part] =
        [.BeginSemantic .Part, .BeginDivisionHeader false,
         .DivisionHeaderLabel t none o.partNumberFormat, .Null,
         .EndDivisionHeader false, .EndSemantic .Part] ∧
      changeHeaders { o with partHeaderFormat := .NumberAlone }
        [.BeginSemantic .Part, .BeginDivisionHeader false,
         .DivisionHeaderLabel t num nf, .Event (.Text s),
         .EndDivisionHeader false, .EndSemantic .Part] =
        [.BeginSemantic .Part, .BeginDivisionHeader false,
         .DivisionHeaderLabel t num o.partNumberFormat, .Null,
         .EndDivisionHeader false, .EndSemantic .Part]) := by
  constructor
  · intro o contents
    exact changeHeadersGo_chapter_numberAlone_eq_labelAlone o contents {}
  · intro o t num nf s
    constructor <;>
      cases hc : o.chapterHeaderFormat <;>
        simp [hc, changeHeaders, changeHeadersGo, chStep, applyHeaderFormats,
          applyChapterFormat, applyPartFormat]

theorem applyHeaderFormats_plain (o : TextHeaderOptions) (e : BookEvent) :
    applyHeaderFormats o .plain e = e := by
  simp [applyHeaderFormats,
    applyChapterFormat_not_chapter _ _ .plain _ (by simp) (by simp),
    applyPartFormat_not_part _ _ .plain _ (by simp) (by simp)]

theorem applyHeaderFormats_chapterLabel_titleAlone (o : TextHeaderOptions)
    (e : BookEvent) (h : o.chapterHeaderFormat = .TitleAlone) :
    applyHeaderFormats o .chapterLabel e = .Null := by
  simp [applyHeaderFormats, h, applyChapterFormat,
    applyPartFormat_not_part _ _ .chapterLabel _ (by simp) (by simp)]

theorem applyHeaderFormats_partLabel_titleAlone (o : TextHeaderOptions)
    (e : BookEvent) (h : o.partHeaderFormat = .TitleAlone) :
    applyHeaderFormats o .partLabel e = .Null := by
  simp [applyHeaderFormats, h, applyPartFormat,
    applyChapterFormat_not_chapter _ _ .partLabel _ (by simp) (by simp)]

theorem applyHeaderFormats_chapterText_titleAlone (o : TextHeaderOptions)
    (e : BookEvent) (h : o.chapterHeaderFormat = .TitleAlone) :
    applyHeaderFormats o .chapterText e = e := by
  simp [applyHeaderFormats, h, applyChapterFormat,
    applyPartFormat_not_part _ _ .chapterText _ (by simp) (by simp)]

theorem changeHeaders_getElem (o : TextHeaderOptions) (l : List BookEvent)
    (i : Nat) :
    (changeHeaders o l)[i]? =
      Option.map₂ (applyHeaderFormats o) ((classifyHeaders l)[i]?) (l[i]?) := by
  simp only [changeHeaders, classifyHeaders]
  exact changeHeadersGo_getElem o l {} i

theorem classifyHeaders_getElem_some (l : List BookEvent) (i : Nat)
    (cls : HeaderClass) (h : (classifyHeaders l)[i]? = some cls) :
    ∃ e, l[i]? = some e := by
  have hlen : i < l.length := by
    have := List.getElem?_eq_some_iff.mp h
    simpa [classifyHeaders, classifyGo_length] using this.1
  exact ⟨l[i], List.getElem?_eq_some_iff.mpr ⟨hlen, rfl⟩⟩

/-- **C8**: `change_headers` rewrites events strictly in place: the result
stream always has the same length; every event the collection pass
classifies as plain (in particular every event outside a chapter or part
division header) is unchanged; with `TitleAlone` every chapter (or part)
header label becomes `Null` — substituted in place, not removed — while
chapter header title text is left unchanged. -/
theorem claim_C8_null_in_place :
    (∀ (o : TextHeaderOptions) (l : List BookEvent),
      (changeHeaders o l).length = l.length) ∧
    (∀ (o : TextHeaderOptions) (l : List BookEvent) (i : Nat),
      (classifyHeaders l)[i]? = some .plain →
      (changeHeaders o l)[i]? = l[i]?) ∧
    (∀ (o : TextHeaderOptions) (l : List BookEvent) (i : Nat),
      o.chapterHeaderFormat = .TitleAlone →
      (classifyHeaders l)[i]? = some .chapterLabel →
      (changeHeaders o l)[i]? = some .Null) ∧
    (∀ (o : TextHeaderOptions) (l : List BookEvent) (i : Nat),
      o.partHeaderFormat = .TitleAlone →
      (classifyHeaders l)[i]? = some .partLabel →
      (changeHeaders o l)[i]? = some .Null) ∧
    (∀ (o : TextHeaderOptions) (l : List BookEvent) (i : Nat),
      o.chapterHeaderFormat = .TitleAlone →
      (classifyHeaders l)[i]? = some .chapterText →
      (changeHeaders o l)[i]? = l[i]?) := by
  refine ⟨fun o l => changeHeadersGo_length o l {}, ?_, ?_, ?_, ?_⟩
  · intro o l i hcls
    obtain ⟨e, he⟩ := classifyHeaders_getElem_some l i _ hcls
    rw [changeHeaders_getElem, hcls, he]
    simp [Option.map₂, applyHeaderFormats_plain]
  · intro o l i hfmt hcls
    obtain ⟨e, he⟩ := classifyHeaders_getElem_some l i _ hcls
    rw [changeHeaders_getElem, hcls, he]
    simp [Option.map₂, applyHeaderFormats_chapterLabel_titleAlone _ _ hfmt]
  · intro o l i hfmt hcls
    obtain ⟨e, he⟩ := classifyHeaders_getElem_some l i _ hcls
    rw [changeHeaders_getElem, hcls, he]
    simp [Option.map₂, applyHeaderFormats_partLabel_titleAlone _ _ hfmt]
  · intro o l i hfmt hcls
    obtain ⟨e, he⟩ := classifyHeaders_getElem_some l i _ hcls
    rw [changeHeaders_getElem, hcls, he]
    simp [Option.map₂, applyHeaderFormats_chapterText_titleAlone _ _ hfmt]

/-- Witness for C8 on a concrete one-chapter-one-part stream with
`TitleAlone` chapter headers. -/
theorem claim_C8_witness :
    (changeHeaders { TextHeaderOptions.default with
      chapterHeaderFormat := .TitleAlone } exC8Stream).length =
        exC8Stream.length ∧
    (classifyHeaders exC8Stream)[2]? = some .chapterLabel ∧
    (changeHeaders { TextHeaderOptions.default with
      chapterHeaderFormat := .TitleAlone } exC8Stream)[2]? = some .Null ∧
    (classifyHeaders exC8Stream)[3]? = some .chapterText ∧
    (changeHeaders { TextHeaderOptions.default with
      chapterHeaderFormat := .TitleAlone } exC8Stream)[3]? = exC8Stream[3]? ∧
    (classifyHeaders exC8Stream)[5]? = some .plain ∧
    (changeHeaders { TextHeaderOptions.default with
      chapterHeaderFormat := .TitleAlone } exC8Stream)[5]? = exC8Stream[5]? :=
  ⟨claim_C8_null_in_place.1 _ exC8Stream,
   by decide,
   claim_C8_null_in_place.2.2.1 _ exC8Stream 2 rfl (by decide),
   by decide,
   claim_C8_null_in_place.2.2.2.2 _ exC8Stream 3 rfl (by decide),
   by decide,
   claim_C8_null_in_place.2.1 _ exC8Stream 5 (by decide)⟩

/-! ## Label/title reconciliation (claim C9) -/

/-- **C9 counterexample**: for the collated chapter header whose joined
label is `"Chapter 1"` and whose title text is
`"Chapter 1: Wolves Attack!"`, `reconcile_joined_label_and_title` keeps
the duplicate TITLE and drops the LABEL — not, as claimed, the label alone
with the title suppressed. -/
theorem claim_C9_counterexample :
    CollatedHeader.get_joined_label epubMarker exC9Header =
      some "Chapter 1" ∧
    CollatedHeader.get_title_text epubMarker exC9Header =
      some "Chapter 1: Wolves Attack!" ∧
    CollatedHeader.reconcile_joined_label_and_title epubMarker exC9Header =
      some (none, some "Chapter 1: Wolves Attack!") ∧
    CollatedHeader.reconcile_joined_label_and_title epubMarker exC9Header ≠
      some (some "Chapter 1", none) := by
  have h3 : CollatedHeader.reconcile_joined_label_and_title epubMarker
      exC9Header = some (none, some "Chapter 1: Wolves Attack!") := rfl
  refine ⟨rfl, rfl, h3, ?_⟩
  rw [h3]
  simp

/-- **C9** (amended): for every backend marker and collated division
header having both a joined label and a title whose lower-cased text
starts with the lower-cased joined label,
`reconcile_joined_label_and_title` suppresses the duplicate by dropping
the label and rendering the title alone. -/
theorem claim_C9_label_title_reconciliation (m : Marker)
    (h : CollatedHeader) (lab t : String)
    (hlab : h.get_joined_label m = some lab)
    (ht : h.get_title_text m = some t)
    (hpre : strStartsWith (strToLower t) (strToLower lab) = true) :
    h.reconcile_joined_label_and_title m = some (none, some t) := by
  simp [CollatedHeader.reconcile_joined_label_and_title, hlab, ht, hpre]

/-- Witness for the amended C9 on the concrete header. -/
theorem claim_C9_witness :
    CollatedHeader.reconcile_joined_label_and_title epubMarker exC9Header =
      some (none, some "Chapter 1: Wolves Attack!") :=
  claim_C9_label_title_reconciliation epubMarker exC9Header "Chapter 1"
    "Chapter 1: Wolves Attack!" rfl rfl (by decide)

/-! ## Unsupported images (claim C5) -/

theorem preprocessGo_unsupported_mem (env : EpubEnv) (dest title : String)
    (hsup : isEpubSupportedImagePath dest = false)
    (hpdf : isPdfPath dest = false) :
    ∀ (src : List BookEvent) (st : PreState),
      (.Event (.Start (.Image dest title)) : BookEvent) ∈ src →
      ∃ err, preprocessGo env st src = .error err := by
  intro src
  induction src with
  | nil => intro st h; cases h
  | cons e rest ih =>
    intro st hmem
    rcases List.mem_cons.mp hmem with he | hrest
    · cases he
      exact ⟨.UnsupportedImage dest, by simp [preprocessGo, hsup, hpdf]⟩
    · cases e with
      | BeginSemantic role =>
        cases role <;> cases hb : st.inFootnote <;>
          · simp only [preprocessGo, hb, Bool.false_eq_true, if_false,
              if_true, reduceIte]
            exact ih _ hrest
      | EndSemantic role =>
        simp only [preprocessGo]
        exact ih _ hrest
      | Event ev =>
        cases ev with
        | Start tag =>
          cases tag with
          | FlattenedFootnote =>
            simp only [preprocessGo]
            exact ih _ hrest
          | Image d t =>
            cases hs : isEpubSupportedImagePath d with
            | true =>
              simp only [preprocessGo, hs, if_true, reduceIte]
              exact ih _ hrest
            | false =>
              cases hp : isPdfPath d with
              | false => exact ⟨.UnsupportedImage d,
                  by simp [preprocessGo, hs, hp]⟩
              | true =>
                cases hr : env.readFile d with
                | none => exact ⟨.MissingImage d,
                    by simp [preprocessGo, hs, hp, hr]⟩
                | some pdfData =>
                  cases hc : env.convertPdfToSvg pdfData with
                  | none => exact ⟨.ImageConversionError d,
                      by simp [preprocessGo, hs, hp, hr, hc]⟩
                  | some svg =>
                    cases hw : env.writeSvg (env.svgTempPath svg) svg with
                    | false => exact ⟨.ImageConversionError d,
                        by simp [preprocessGo, hs, hp, hr, hc, hw]⟩
                    | true =>
                      simp only [preprocessGo, hs, hp, hr, hc, hw,
                        Bool.false_eq_true, if_false, if_true, reduceIte]
                      exact ih _ hrest
          | _ =>
            cases hb : st.inFootnote <;>
              · simp only [preprocessGo, hb, Bool.false_eq_true, if_false,
                  if_true, reduceIte]
                exact ih _ hrest
        | End tag =>
          cases tag with
          | FlattenedFootnote =>
            simp only [preprocessGo]
            exact ih _ hrest
          | Image d t =>
            cases hl : lookupChanged d st.changed <;>
              · simp only [preprocessGo, hl]
                exact ih _ hrest
          | _ =>
            cases hb : st.inFootnote <;>
              · simp only [preprocessGo, hb, Bool.false_eq_true, if_false,
                  if_true, reduceIte]
                exact ih _ hrest
        | _ =>
          cases hb : st.inFootnote <;>
            · simp only [preprocessGo, hb, Bool.false_eq_true, if_false,
                if_true, reduceIte]
              exact ih _ hrest
      | _ =>
        cases hb : st.inFootnote <;>
          · simp only [preprocessGo, hb, Bool.false_eq_true, if_false,
              if_true, reduceIte]
            exact ih _ hrest

/-- **C5 counterexample**: a `.bmp` image is unsupported by both backends,
yet only the EPUB `preprocess` aborts; the LaTeX writer's image arm
appends nothing to the output and — its `write` returning `()` — has no
error to raise, so the LaTeX render silently omits the image instead of
failing fatally. -/
theorem claim_C5_counterexample :
    isEpubSupportedImagePath "diagram.bmp" = false ∧
    isPdfPath "diagram.bmp" = false ∧
    isLatexSupportedImagePath "diagram.bmp" = false ∧
    isSvgPath "diagram.bmp" = false ∧
    preprocess exEpubEnv exC5Stream =
      .error (.UnsupportedImage "diagram.bmp") ∧
    latexWriteImage exLatexEnv (fun _ => "") exC5Image = "" :=
  ⟨rfl, rfl, rfl, rfl, rfl, rfl⟩

/-- **C5** (amended): an image whose format is neither supported nor
convertible is fatal for the EPUB backend — `preprocess` returns an error
for every stream containing such an image start — but not for the LaTeX
backend: `get_latex_image_path` returns `Err(())` and the writer's image
arm appends nothing and signals nothing, silently omitting the image. -/
theorem claim_C5_unsupported_image :
    (∀ (env : EpubEnv) (src : List BookEvent) (dest title : String),
      (.Event (.Start (.Image dest title)) : BookEvent) ∈ src →
      isEpubSupportedImagePath dest = false →
      isPdfPath dest = false →
      ∃ err, preprocess env src = .error err) ∧
    (∀ (env : LatexEnv) (writePlain : Event → String)
        (img : CollatedImage),
      isLatexSupportedImagePath img.dest = false →
      isSvgPath img.dest = false →
      getLatexImagePath env img = .error () ∧
      latexWriteImage env writePlain img = "") := by
  constructor
  · intro env src dest title hmem hsup hpdf
    obtain ⟨err, herr⟩ :=
      preprocessGo_unsupported_mem env dest title hsup hpdf src
        initialPreState hmem
    exact ⟨err, by rw [preprocess, herr]; rfl⟩
  · intro env writePlain img hsup hsvg
    have h : getLatexImagePath env img = .error () := by
      simp [getLatexImagePath, hsup, hsvg]
    exact ⟨h, by simp [latexWriteImage, h]⟩

/-- Witness for the amended C5 at the concrete bitmap image. -/
theorem claim_C5_witness :
    (∃ err, preprocess exEpubEnv exC5Stream = .error err) ∧
    getLatexImagePath exLatexEnv exC5Image = .error () ∧
    latexWriteImage exLatexEnv (fun _ => "") exC5Image = "" :=
  ⟨claim_C5_unsupported_image.1 exEpubEnv exC5Stream "diagram.bmp" ""
     (by decide) rfl rfl,
   (claim_C5_unsupported_image.2 exLatexEnv (fun _ => "") exC5Image
     rfl rfl).1,
   (claim_C5_unsupported_image.2 exLatexEnv (fun _ => "") exC5Image
     rfl rfl).2⟩

end Bookbinder
